import Mathlib

/-!
Verification development for the prediction-market indexer core
(batch sync manager, realtime sync manager, backfill manager,
CLOB auth signer). Each definition is a shallow embedding of the
corresponding TypeScript function; machine integers are modelled
as `Nat`/`Int` with explicit reduction modulo `2^32` where the
JavaScript semantics wraps.
-/

set_option maxRecDepth 100000

namespace Indexer

/- ───────────────────────── JavaScript 32-bit integer semantics ── -/

/-- Interpretation of the JavaScript `x >>> 0` coercion: the value of an
integer as an unsigned 32-bit number. -/
def toUint32 (i : Int) : Nat := (i % (4294967296 : Int)).toNat

/-- Interpretation of the JavaScript signed 32-bit coercion (`ToInt32`). -/
def toInt32 (n : Nat) : Int :=
  if n % 4294967296 < 2147483648 then ((n % 4294967296 : Nat) : Int)
  else ((n % 4294967296 : Nat) : Int) - 4294967296

/-- JavaScript `a ^ b`: both operands are coerced to 32-bit integers,
xored bitwise, and the result is read back as a signed 32-bit integer. -/
def jsXor (a b : Int) : Int := toInt32 (Nat.xor (toUint32 a) (toUint32 b))

/-- JavaScript `Math.imul(a, b)`: 32-bit wrapping multiplication with a
signed 32-bit result. -/
def jsImul (a b : Int) : Int := toInt32 (toUint32 a * toUint32 b % 4294967296)

/- ───────────────────────── Token sharding (realtime manager) ── -/

/-- Loop body of `hashToken` in the realtime sync manager: for each UTF-16
code unit `c` of the token id the source runs `h ^= c; h = Math.imul(h, 0x01000193)`
on a JavaScript number that the bitwise operations keep in signed 32-bit range. -/
def hashTokenGo (h : Int) : List Nat → Int
  | [] => h
  | c :: cs => hashTokenGo (jsImul (jsXor h ((c : Nat) : Int)) 16777619) cs

/-- Embedding of `RealtimeSyncManager.hashToken`: FNV-1a over the UTF-16 code
units of the token id, seeded with `0x811c9dc5`, returned through `>>> 0`.
A token id is represented by its list of UTF-16 code units. -/
def hashToken (units : List Nat) : Nat := toUint32 (hashTokenGo 2166136261 units)

/-- Mathematical FNV-1a 32-bit hash, written from the specification: seed
`0x811c9dc5`, per code unit xor then multiply by `0x01000193` modulo `2^32`. -/
def fnv1a32 (units : List Nat) : Nat :=
  units.foldl (fun h c => Nat.xor h c * 16777619 % 4294967296) 2166136261

/-- Number of WebSocket clients created by `initClients`:
`Math.max(1, config.wsConnections)`. -/
def clientCount (wsConnections : Nat) : Nat := Nat.max 1 wsConnections

/-- Shard index chosen by `assignTokenShards` for one token:
`this.hashToken(tokenId) % n` with `n` the number of clients. -/
def shardIndex (wsConnections : Nat) (units : List Nat) : Nat :=
  hashToken units % clientCount wsConnections

/-- One step of the `assignTokenShards` loop: push the token onto the list
of the client at index `hashToken(tokenId) % n`. -/
def pushShard (n : Nat) (shards : List (List (List Nat))) (t : List Nat) :
    List (List (List Nat)) :=
  shards.set (hashToken t % n) (shards.getD (hashToken t % n) [] ++ [t])

/-- Embedding of `RealtimeSyncManager.assignTokenShards`: every client list
is first cleared, then each subscribed token is appended to the client at
index `hashToken(tokenId) % n`. -/
def assignTokenShards (tokens : List (List Nat)) (n : Nat) :
    List (List (List Nat)) :=
  tokens.foldl (pushShard n) (List.replicate n [])

/- ───────────────────────── Catalog data model ── -/

/-- Local market row (the `markets` table columns the sync engine reads and
writes; instants are modelled as `Nat`, prices as `Rat`). -/
structure MarketRow where
  id : String
  question : String
  slug : String
  endDateIso : Option Nat
  outcomeTokenIds : List String
  outcomePrices : List Rat
  priceUpdatedAt : Option Nat
  eventId : Option String
  active : Bool
  closed : Bool
  archived : Bool
deriving Repr, DecidableEq

/-- Incoming catalog market after the `values` mapping in `upsertMarketsBatch`
(`NewMarket`): the catalog row carries no `event_id` and no
`price_updated_at`. -/
structure MarketIn where
  id : String
  question : String
  slug : String
  endDateIso : Option Nat
  outcomeTokenIds : List String
  outcomePrices : List Rat
  active : Bool
  closed : Bool
  archived : Bool
deriving Repr, DecidableEq

/-- Local event row. -/
structure EventRow where
  id : String
  title : String
  slug : String
  endDate : Option Nat
  active : Bool
  closed : Bool
  archived : Bool
deriving Repr, DecidableEq

/-- Incoming catalog event (`NewEvent`). -/
structure EventIn where
  id : String
  title : String
  slug : String
  endDate : Option Nat
  active : Bool
  closed : Bool
  archived : Bool
deriving Repr, DecidableEq

/- ───────────────────────── Catalog page upsert (merge rule) ── -/

/-- The `ON CONFLICT DO UPDATE` branch of `upsertMarketsBatch`: scalar fields
take the incoming value, `closed`/`archived` are or-merged with the existing
row, `active` is recomputed from the merged flags, and `event_id` and
`price_updated_at` are not in the `SET` list. -/
def upsertMarketRow (existing : MarketRow) (incoming : MarketIn) : MarketRow :=
  { id := existing.id
    question := incoming.question
    slug := incoming.slug
    endDateIso := incoming.endDateIso
    outcomeTokenIds := incoming.outcomeTokenIds
    outcomePrices := incoming.outcomePrices
    priceUpdatedAt := existing.priceUpdatedAt
    eventId := existing.eventId
    active :=
      if existing.closed || incoming.closed then false
      else if existing.archived || incoming.archived then false
      else incoming.active
    closed := existing.closed || incoming.closed
    archived := existing.archived || incoming.archived }

/-- Fresh insert branch of `upsertMarketsBatch`: the catalog values as given;
`event_id` and `price_updated_at` are absent from the insert list. -/
def insertMarketRow (incoming : MarketIn) : MarketRow :=
  { id := incoming.id
    question := incoming.question
    slug := incoming.slug
    endDateIso := incoming.endDateIso
    outcomeTokenIds := incoming.outcomeTokenIds
    outcomePrices := incoming.outcomePrices
    priceUpdatedAt := none
    eventId := none
    active := incoming.active
    closed := incoming.closed
    archived := incoming.archived }

/-- Upsert of one catalog market into the markets table, keyed on `id`. -/
def upsertMarket (db : List MarketRow) (m : MarketIn) : List MarketRow :=
  if db.any (fun r => r.id = m.id) then
    db.map (fun r => if r.id = m.id then upsertMarketRow r m else r)
  else
    db ++ [insertMarketRow m]

/-- Embedding of `upsertMarketsBatch` over one catalog page (row ids within a
page are distinct upstream, so the multi-row statement acts row by row). -/
def upsertMarketsBatch (db : List MarketRow) (page : List MarketIn) : List MarketRow :=
  page.foldl upsertMarket db

/-- The `ON CONFLICT DO UPDATE` branch of `upsertEventsBatch`, with the same
or-merge rule for `closed`/`archived` and recomputed `active`. -/
def upsertEventRow (existing : EventRow) (incoming : EventIn) : EventRow :=
  { id := existing.id
    title := incoming.title
    slug := incoming.slug
    endDate := incoming.endDate
    active :=
      if existing.closed || incoming.closed then false
      else if existing.archived || incoming.archived then false
      else incoming.active
    closed := existing.closed || incoming.closed
    archived := existing.archived || incoming.archived }

/-- Fresh insert branch of `upsertEventsBatch`. -/
def insertEventRow (incoming : EventIn) : EventRow :=
  { id := incoming.id
    title := incoming.title
    slug := incoming.slug
    endDate := incoming.endDate
    active := incoming.active
    closed := incoming.closed
    archived := incoming.archived }

/-- Upsert of one catalog event, keyed on `id`. -/
def upsertEvent (db : List EventRow) (e : EventIn) : List EventRow :=
  if db.any (fun r => r.id = e.id) then
    db.map (fun r => if r.id = e.id then upsertEventRow r e else r)
  else
    db ++ [insertEventRow e]

/-- Embedding of `upsertEventsBatch` over one catalog page. -/
def upsertEventsBatch (db : List EventRow) (page : List EventIn) : List EventRow :=
  page.foldl upsertEvent db

/-- Lookup of a market row by id. -/
def findMarket (db : List MarketRow) (id : String) : Option MarketRow :=
  db.find? (fun r => r.id = id)

/-- Lookup of an event row by id. -/
def findEvent (db : List EventRow) (id : String) : Option EventRow :=
  db.find? (fun r => r.id = id)

/- ───────────────────────── Expiration audit ── -/

/-- Relational store state touched by the expiration audit. -/
structure Store where
  markets : List MarketRow
  events : List EventRow
deriving Repr, DecidableEq

/-- Predicate of the `auditExpiredMarkets` update: `active AND NOT closed AND
end_date_iso IS NOT NULL AND end_date_iso < NOW()`. -/
def marketExpired (now : Nat) (m : MarketRow) : Bool :=
  m.active && !m.closed &&
    (match m.endDateIso with
     | some d => decide (d < now)
     | none => false)

/-- Effect of the `auditExpiredMarkets` update on one row. -/
def stepMarket (now : Nat) (m : MarketRow) : MarketRow :=
  if marketExpired now m then { m with active := false } else m

/-- Embedding of `auditExpiredMarkets`: expired open markets become
inactive. -/
def auditExpiredMarkets (now : Nat) (s : Store) : Store :=
  { s with markets := s.markets.map (stepMarket now) }

/-- A live market row: `active AND NOT closed AND NOT archived` (the filter
of the `HAVING COUNT(*) FILTER (...)` clause). -/
def marketLive (m : MarketRow) : Bool :=
  m.active && !m.closed && !m.archived

/-- Predicate of the `auditEventsWithNoActiveMarkets` update: the event is
open, has at least one linked market (`JOIN`), and none of its linked
markets is live. -/
def eventOrphan (ms : List MarketRow) (e : EventRow) : Bool :=
  e.active && !e.closed &&
    (ms.any (fun m => m.eventId = some e.id)) &&
    !(ms.any (fun m => m.eventId = some e.id && marketLive m))

/-- Effect of the `auditEventsWithNoActiveMarkets` update on one row, given
the current markets table. -/
def stepOrphan (ms : List MarketRow) (e : EventRow) : EventRow :=
  if eventOrphan ms e then { e with active := false } else e

/-- Embedding of `auditEventsWithNoActiveMarkets`. -/
def auditEventsWithNoActiveMarkets (s : Store) : Store :=
  { s with events := s.events.map (stepOrphan s.markets) }

/-- Predicate of the `auditExpiredEvents` update. -/
def eventExpired (now : Nat) (e : EventRow) : Bool :=
  e.active && !e.closed &&
    (match e.endDate with
     | some d => decide (d < now)
     | none => false)

/-- Effect of the `auditExpiredEvents` update on one row. -/
def stepExpired (now : Nat) (e : EventRow) : EventRow :=
  if eventExpired now e then { e with active := false } else e

/-- Embedding of `auditExpiredEvents`. -/
def auditExpiredEvents (now : Nat) (s : Store) : Store :=
  { s with events := s.events.map (stepExpired now) }

/-- Embedding of `runExpirationAudit`: the three audits in source order
(expired markets, then events with no active markets, then expired
events). -/
def runExpirationAudit (now : Nat) (s : Store) : Store :=
  auditExpiredEvents now (auditEventsWithNoActiveMarkets (auditExpiredMarkets now s))

/- ───────────────────────── Price samples ── -/

/-- One row of the `price_history` table. -/
structure Sample where
  marketId : String
  tokenId : String
  instant : Nat
  price : Rat
  source : String
deriving Repr, DecidableEq

/-- Conflict target of the price-history unique index:
`(market_id, token_id, timestamp, source)`. -/
def sampleKey (s : Sample) : String × String × Nat × String :=
  (s.marketId, s.tokenId, s.instant, s.source)

/-- Idempotent insert of one sample (`ON CONFLICT DO NOTHING` on the unique
index). -/
def insertSampleRow (db : List Sample) (s : Sample) : List Sample :=
  if db.any (fun r => sampleKey r = sampleKey s) then db else db ++ [s]

/-- Idempotent insert of a batch of samples. -/
def insertSamples (db : List Sample) (ss : List Sample) : List Sample :=
  ss.foldl insertSampleRow db

/- ───────────────────────── Historical backfill ── -/

/-- Samples produced by `backfillMarketHistory` for one history point
`(t, p)`: two samples `(token0, p)`, `(token1, 1 - p)` for a binary market,
and the primary-token sample otherwise; an empty token list is rejected by
the guard before this code runs. -/
def backfillPointSamples (marketId : String) (tokenIds : List String)
    (t : Nat) (p : Rat) : List Sample :=
  match tokenIds with
  | [t0, t1] =>
      [ { marketId := marketId, tokenId := t0, instant := t, price := p, source := "clob" }
      , { marketId := marketId, tokenId := t1, instant := t, price := 1 - p, source := "clob" } ]
  | t0 :: _ =>
      [ { marketId := marketId, tokenId := t0, instant := t, price := p, source := "clob" } ]
  | [] => []

/-- Embedding of the insert phase of `backfillMarketHistory`: the flattened
per-point samples are inserted idempotently (the source batches the inserts
by 100, which does not change the sequential insert order). -/
def backfillMarketHistory (db : List Sample) (marketId : String)
    (tokenIds : List String) (history : List (Nat × Rat)) : List Sample :=
  insertSamples db
    (history.flatMap (fun tp => backfillPointSamples marketId tokenIds tp.1 tp.2))

/- ───────────────────────── Realtime price buffer and flush ── -/

/-- One buffered price update (`PriceUpdate` in the realtime manager). -/
structure PriceUpdate where
  tokenId : String
  marketId : String
  price : Rat
  timestamp : Nat
deriving Repr, DecidableEq

/-- The process-wide price buffer `Map<token_id, PriceUpdate>`, modelled as
an association list in insertion order; `set` overwrites the entry of an
existing key in place, as a JavaScript `Map` does. -/
def bufferSet (buf : List PriceUpdate) (u : PriceUpdate) : List PriceUpdate :=
  if buf.any (fun v => v.tokenId = u.tokenId) then
    buf.map (fun v => if v.tokenId = u.tokenId then u else v)
  else
    buf ++ [u]

/-- Database state touched by `flushPrices`. -/
structure FlushDb where
  markets : List MarketRow
  samples : List Sample
deriving Repr, DecidableEq

/-- One database statement issued by `flushPrices`. -/
inductive FlushStmt where
  | insertSample (s : Sample)
  | setPrices (marketId : String) (prices : List Rat) (now : Nat)
deriving Repr, DecidableEq

/-- Effect of one flush statement: the sample insert is idempotent on the
unique index; the market update writes `outcome_prices` and
`price_updated_at` only. -/
def applyStmt (db : FlushDb) : FlushStmt → FlushDb
  | .insertSample s => { db with samples := insertSampleRow db.samples s }
  | .setPrices mId ps now =>
      { db with markets :=
          db.markets.map (fun r =>
            if r.id = mId then { r with outcomePrices := ps, priceUpdatedAt := some now } else r) }

/-- In-memory merge loop of `flushPrices` for one market: for each update,
`indexOf` the token in `outcome_token_ids`; on a hit replace the price at
that index, otherwise leave the array alone. -/
def applyPriceUpdates (tokenIds : List String) (prices : List Rat)
    (us : List PriceUpdate) : List Rat :=
  us.foldl
    (fun ps u =>
      match tokenIds.findIdx? (fun t => t = u.tokenId) with
      | some i => ps.set i u.price
      | none => ps)
    prices

/-- The `price_history` row built by `flushPrices` for one buffered update. -/
def sampleOfUpdate (u : PriceUpdate) : Sample :=
  { marketId := u.marketId, tokenId := u.tokenId, instant := u.timestamp
  , price := u.price, source := "websocket" }

/-- One step of the grouping loop of `flushPrices`: append the update to the
bucket of its market, creating the bucket on first sight (JavaScript `Map`
iteration preserves first-insertion order). -/
def groupInsert (acc : List (String × List PriceUpdate)) (u : PriceUpdate) :
    List (String × List PriceUpdate) :=
  if acc.any (fun g => g.1 = u.marketId) then
    acc.map (fun g => if g.1 = u.marketId then (g.1, g.2 ++ [u]) else g)
  else
    acc ++ [(u.marketId, [u])]

/-- Grouping of the snapshot by `market_id`, as in `flushPrices`. -/
def groupByMarket (us : List PriceUpdate) : List (String × List PriceUpdate) :=
  us.foldl groupInsert []

/-- Statements issued for one market group: the market row is read first
(`findFirst`; a missing market skips the group), then one idempotent sample
insert per update, then a single write of the merged `outcome_prices`. -/
def groupStmts (db : FlushDb) (now : Nat) (mId : String) (us : List PriceUpdate) :
    List FlushStmt :=
  match db.markets.find? (fun r => r.id = mId) with
  | none => []
  | some r =>
      us.map (fun u => FlushStmt.insertSample (sampleOfUpdate u)) ++
        [FlushStmt.setPrices mId (applyPriceUpdates r.outcomeTokenIds r.outcomePrices us) now]

/-- The full statement sequence of one flush over a snapshot. Every group
reads only its own market row and no two groups share a market, so each
merge is computed from the database state at flush start. -/
def flushStmts (db : FlushDb) (now : Nat) (snapshot : List PriceUpdate) :
    List FlushStmt :=
  (groupByMarket snapshot).flatMap (fun g => groupStmts db now g.1 g.2)

/-- Embedding of `flushPrices`. The failure oracle `failAt = some k` means
the statement at index `k` throws when reached: statements before it have
taken effect, the `catch` branch leaves the buffer untouched. On success the
keys of the snapshot are deleted from the live buffer. -/
def flushPrices (buf : List PriceUpdate) (db : FlushDb) (now : Nat)
    (failAt : Option Nat) : List PriceUpdate × FlushDb :=
  if buf.isEmpty then (buf, db)
  else
    let snapshot := buf
    let stmts := flushStmts db now snapshot
    match failAt with
    | some k =>
        if k < stmts.length then
          (buf, (stmts.take k).foldl applyStmt db)
        else
          (buf.filter (fun u => !(snapshot.any (fun v => v.tokenId = u.tokenId))),
            stmts.foldl applyStmt db)
    | none =>
        (buf.filter (fun u => !(snapshot.any (fun v => v.tokenId = u.tokenId))),
          stmts.foldl applyStmt db)

/- ───────────────────────── Subscription frames and resubscribe ── -/

/-- Frames the realtime manager can send on the market channel. The
unsubscribe shape exists in the protocol but the source never builds it. -/
inductive WsFrame where
  | initialFrame (assets : List (List Nat))
  | subscribeFrame (assets : List (List Nat))
  | unsubscribeFrame (assets : List (List Nat))
deriving Repr, DecidableEq

/-- Tail of the chunking loop: `acc` holds the current batch in reverse and
`cap` its remaining capacity; `m` is the full batch size. The recursion is
structural on the list so the kernel can evaluate it. -/
def chunksGo (m : Nat) : List α → List α → Nat → List (List α)
  | [], acc, _ => if acc.isEmpty then [] else [acc.reverse]
  | x :: xs, acc, cap =>
      if cap ≤ 1 then (x :: acc).reverse :: chunksGo m xs [] m
      else chunksGo m xs (x :: acc) (cap - 1)

/-- Chunking of a list into consecutive batches of `n` elements (`n` is
forced to at least 1, matching the positive batch sizes in the source). -/
def chunksOf (n : Nat) (l : List α) : List (List α) :=
  chunksGo (Nat.max 1 n) l [] (Nat.max 1 n)

/-- Embedding of `sendSubscriptions` for an open socket: batches of at most
500 token ids; when `isInitial` the first frame is the initial shape and the
remaining batches use `operation=subscribe`, otherwise every frame is a
subscribe frame. -/
def sendSubscriptions (tokenIds : List (List Nat)) (isInitial : Bool) :
    List WsFrame :=
  if tokenIds.isEmpty then []
  else
    let batches := chunksOf 500 tokenIds
    if isInitial then
      WsFrame.initialFrame (batches.headD []) :: (batches.tail.map WsFrame.subscribeFrame)
    else
      batches.map WsFrame.subscribeFrame

/-- Token ids carried by a frame. -/
def frameAssets : WsFrame → List (List Nat)
  | .initialFrame a => a
  | .subscribeFrame a => a
  | .unsubscribeFrame a => a

/-- Per-connection state of the realtime manager. In the sequential model a
client is connected exactly when its socket exists, the open event has
fired, and no close event has fired since, so the `ws` null check, the
`isConnected` flag, and the `readyState === OPEN` check of the source
coincide in the single `connected` flag. -/
structure ClientSt where
  id : Nat
  connected : Bool
  assignedTokens : List (List Nat)
  subscribedTokens : List (List Nat)
deriving Repr, DecidableEq

/-- Placeholder client used for out-of-range list reads in statements. -/
def defaultClient : ClientSt :=
  { id := 0, connected := false, assignedTokens := [], subscribedTokens := [] }

/-- Fresh clients built by `initClients`. -/
def mkClients (n : Nat) : List ClientSt :=
  (List.range n).map (fun i =>
    { id := i, connected := false, assignedTokens := [], subscribedTokens := [] })

/-- Body of the resubscribe loop for one client whose shard is `assigned`:
disconnected clients are skipped, `to_add` is the assigned shard minus the
tokens already marked subscribed, an empty `to_add` sends nothing, and the
sent tokens are marked subscribed. -/
def resubscribeClient (c : ClientSt) (assigned : List (List Nat)) :
    ClientSt × List WsFrame :=
  if !c.connected then ({ c with assignedTokens := assigned }, [])
  else if (assigned.filter (fun t => !(c.subscribedTokens.contains t))).isEmpty then
    ({ c with assignedTokens := assigned }, [])
  else
    ({ c with assignedTokens := assigned
            , subscribedTokens :=
                c.subscribedTokens ++
                  assigned.filter (fun t => !(c.subscribedTokens.contains t)) },
      sendSubscriptions (assigned.filter (fun t => !(c.subscribedTokens.contains t))) false)

/-- Embedding of `RealtimeSyncManager.resubscribe` after the markets-refreshed
signal: reload the token universe, keep the client pool when its size already
matches `max(1, ws_connections)` (`initClients` returns early), reshard, and
send subscribe frames for each connected client. Returns the new clients
and, per client, the frames it sent. -/
def resubscribe (wsConnections : Nat) (tokens : List (List Nat))
    (clients : List ClientSt) : List ClientSt × List (List WsFrame) :=
  let n := clientCount wsConnections
  let clients1 := if clients.length = n then clients else mkClients n
  let shards := assignTokenShards tokens clients1.length
  let results := clients1.mapIdx (fun i c => resubscribeClient c (shards.getD i []))
  (results.map (fun p => p.1), results.map (fun p => p.2))

/- ───────────────────────── SHA-256 (FIPS 180-4) ── -/

/-- Wrap to a 32-bit word. -/
def w32 (n : Nat) : Nat := n % 4294967296

/-- Right rotation of a 32-bit word. -/
def rotr32 (n x : Nat) : Nat := w32 ((x >>> n) ||| (x <<< (32 - n)))

/-- SHA-256 choice function. -/
def sha256Ch (x y z : Nat) : Nat := Nat.xor (Nat.land x y) (Nat.land (4294967295 - w32 x) z)

/-- SHA-256 majority function. -/
def sha256Maj (x y z : Nat) : Nat :=
  Nat.xor (Nat.xor (Nat.land x y) (Nat.land x z)) (Nat.land y z)

/-- Big sigma 0. -/
def bsig0 (x : Nat) : Nat := Nat.xor (Nat.xor (rotr32 2 x) (rotr32 13 x)) (rotr32 22 x)

/-- Big sigma 1. -/
def bsig1 (x : Nat) : Nat := Nat.xor (Nat.xor (rotr32 6 x) (rotr32 11 x)) (rotr32 25 x)

/-- Small sigma 0. -/
def ssig0 (x : Nat) : Nat := Nat.xor (Nat.xor (rotr32 7 x) (rotr32 18 x)) (x >>> 3)

/-- Small sigma 1. -/
def ssig1 (x : Nat) : Nat := Nat.xor (Nat.xor (rotr32 17 x) (rotr32 19 x)) (x >>> 10)

/-- The eight SHA-256 initial hash values, in decimal. -/
def sha256Init : List Nat :=
  [1779033703, 3144134277, 1013904242, 2773480762,
   1359893119, 2600822924, 528734635, 1541459225]

/-- The 64 SHA-256 round constants, in decimal. -/
def sha256K : List Nat :=
  [1116352408, 1899447441, 3049323471, 3921009573, 961987163, 1508970993,
   2453635748, 2870763221, 3624381080, 310598401, 607225278, 1426881987,
   1925078388, 2162078206, 2614888103, 3248222580, 3835390401, 4022224774,
   264347078, 604807628, 770255983, 1249150122, 1555081692, 1996064986,
   2554220882, 2821834349, 2952996808, 3210313671, 3336571891, 3584528711,
   113926993, 338241895, 666307205, 773529912, 1294757372, 1396182291,
   1695183700, 1986661051, 2177026350, 2456956037, 2730485921, 2820302411,
   3259730800, 3345764771, 3516065817, 3600352804, 4094571909, 275423344,
   430227734, 506948616, 659060556, 883997877, 958139571, 1322822218,
   1537002063, 1747873779, 1955562222, 2024104815, 2227730452, 2361852424,
   2428436474, 2756734187, 3204031479, 3329325298]

/-- SHA-256 padding: append `0x80`, zeros to 56 mod 64 bytes, then the
64-bit big-endian bit length. -/
def sha256Pad (msg : List Nat) : List Nat :=
  let zeros := (119 - msg.length % 64) % 64
  let bitLen := 8 * msg.length
  msg ++ [0x80] ++ List.replicate zeros 0 ++
    [ bitLen >>> 56 % 256, bitLen >>> 48 % 256, bitLen >>> 40 % 256, bitLen >>> 32 % 256
    , bitLen >>> 24 % 256, bitLen >>> 16 % 256, bitLen >>> 8 % 256, bitLen % 256 ]

/-- Big-endian packing of 4 bytes into one 32-bit word per chunk. -/
def bytesToWords (bytes : List Nat) : List Nat :=
  (chunksOf 4 bytes).map (fun c =>
    (c.getD 0 0 <<< 24) + (c.getD 1 0 <<< 16) + (c.getD 2 0 <<< 8) + c.getD 3 0)

/-- Message-schedule extension from 16 to 64 words. -/
def sha256Extend (w : List Nat) : Nat → List Nat
  | 0 => w
  | k + 1 =>
      let l := w.length
      sha256Extend
        (w ++ [w32 (ssig1 (w.getD (l - 2) 0) + w.getD (l - 7) 0 +
          ssig0 (w.getD (l - 15) 0) + w.getD (l - 16) 0)]) k

/-- One SHA-256 compression round. -/
def sha256Round (st : List Nat) (kw : Nat × Nat) : List Nat :=
  let a := st.getD 0 0
  let b := st.getD 1 0
  let c := st.getD 2 0
  let d := st.getD 3 0
  let e := st.getD 4 0
  let f := st.getD 5 0
  let g := st.getD 6 0
  let h := st.getD 7 0
  let t1 := w32 (h + bsig1 e + sha256Ch e f g + kw.1 + kw.2)
  let t2 := w32 (bsig0 a + sha256Maj a b c)
  [w32 (t1 + t2), a, b, c, w32 (d + t1), e, f, g]

/-- SHA-256 compression of one 16-word block into the chaining state. -/
def sha256Compress (h : List Nat) (block : List Nat) : List Nat :=
  let w := sha256Extend block 48
  let st := (sha256K.zip w).foldl sha256Round h
  (h.zip st).map (fun p => w32 (p.1 + p.2))

/-- SHA-256 digest of a byte list, as 32 bytes. -/
def sha256Bytes (msg : List Nat) : List Nat :=
  let blocks := chunksOf 16 (bytesToWords (sha256Pad msg))
  let h := blocks.foldl sha256Compress sha256Init
  h.flatMap (fun x => [x >>> 24 % 256, x >>> 16 % 256, x >>> 8 % 256, x % 256])

/-- Lowercase hexadecimal digit. -/
def hexDigit (n : Nat) : Char := "0123456789abcdef".toList.getD n 'x'

/-- Lowercase hexadecimal rendering of a byte list (the `digest("hex")`
output format of the source). -/
def bytesToHex (bytes : List Nat) : String :=
  String.mk (bytes.flatMap (fun b => [hexDigit (b / 16 % 16), hexDigit (b % 16)]))

/-- UTF-8 encoding of one character. -/
def charUtf8 (c : Char) : List Nat :=
  let n := c.toNat
  if n < 0x80 then [n]
  else if n < 0x800 then [0xC0 ||| (n >>> 6), 0x80 ||| (n &&& 0x3F)]
  else if n < 0x10000 then
    [0xE0 ||| (n >>> 12), 0x80 ||| ((n >>> 6) &&& 0x3F), 0x80 ||| (n &&& 0x3F)]
  else
    [0xF0 ||| (n >>> 18), 0x80 ||| ((n >>> 12) &&& 0x3F),
     0x80 ||| ((n >>> 6) &&& 0x3F), 0x80 ||| (n &&& 0x3F)]

/-- UTF-8 encoding of a string (the encoding both `createHash().update` and
`createHmac().update` apply to string input). -/
def utf8Encode (s : String) : List Nat := s.data.flatMap charUtf8

/-- Lowercase hex SHA-256 of a string, as
`createHash("sha256").update(s).digest("hex")` computes it. -/
def sha256Hex (s : String) : String := bytesToHex (sha256Bytes (utf8Encode s))

/- ───────────────────────── HMAC-SHA256 and base64 ── -/

/-- HMAC-SHA256 (FIPS 198-1) with the SHA-256 block size of 64 bytes. -/
def hmacSha256 (key msg : List Nat) : List Nat :=
  let k0 := if 64 < key.length then sha256Bytes key else key
  let k1 := k0 ++ List.replicate (64 - k0.length) 0
  let ipad := k1.map (fun b => Nat.xor b 0x36)
  let opad := k1.map (fun b => Nat.xor b 0x5c)
  sha256Bytes (opad ++ sha256Bytes (ipad ++ msg))

/-- The standard base64 alphabet. -/
def b64Alphabet : List Char :=
  "ABCDEFGHIJKLMNOPQRSTUVWXYZabcdefghijklmnopqrstuvwxyz0123456789+/".toList

/-- Index of a character in the base64 alphabet; `none` for padding and any
other character. -/
def b64Index (c : Char) : Option Nat := b64Alphabet.findIdx? (fun d => d = c)

/-- Decoding of a list of 6-bit values into bytes: full groups of four give
three bytes, a trailing group of three gives two, of two gives one, and a
lone trailing value is dropped, which is how the Node.js base64 decoder
packs the values it has collected. -/
def b64DecodeGroups : List Nat → List Nat
  | a :: b :: c :: d :: rest =>
      ((a <<< 2) ||| (b >>> 4)) :: (((b &&& 15) <<< 4) ||| (c >>> 2)) ::
        (((c &&& 3) <<< 6) ||| d) :: b64DecodeGroups rest
  | [a, b, c] => [(a <<< 2) ||| (b >>> 4), ((b &&& 15) <<< 4) ||| (c >>> 2)]
  | [a, b] => [(a <<< 2) ||| (b >>> 4)]
  | _ => []

/-- Tolerant base64 decoding of a string (`Buffer.from(s, "base64")`): the
Node.js decoder skips characters outside the alphabet but stops at the
first `=`, ignoring everything after it; the 6-bit values collected up to
that point are packed into bytes. -/
def base64Decode (s : String) : List Nat :=
  b64DecodeGroups ((s.data.takeWhile (fun c => c ≠ '=')).filterMap b64Index)

/-- Standard base64 encoding of a byte list with `=` padding
(`digest("base64")`). -/
def b64EncodeGroups : List Nat → List Char
  | b1 :: b2 :: b3 :: rest =>
      b64Alphabet.getD (b1 >>> 2) 'A' ::
      b64Alphabet.getD (((b1 &&& 3) <<< 4) ||| (b2 >>> 4)) 'A' ::
      b64Alphabet.getD (((b2 &&& 15) <<< 2) ||| (b3 >>> 6)) 'A' ::
      b64Alphabet.getD (b3 &&& 63) 'A' :: b64EncodeGroups rest
  | [b1, b2] =>
      [ b64Alphabet.getD (b1 >>> 2) 'A'
      , b64Alphabet.getD (((b1 &&& 3) <<< 4) ||| (b2 >>> 4)) 'A'
      , b64Alphabet.getD ((b2 &&& 15) <<< 2) 'A', '=' ]
  | [b1] =>
      [ b64Alphabet.getD (b1 >>> 2) 'A'
      , b64Alphabet.getD ((b1 &&& 3) <<< 4) 'A', '=', '=' ]
  | [] => []

/-- Base64 rendering of a byte list. -/
def base64Encode (bytes : List Nat) : String := String.mk (b64EncodeGroups bytes)

/- ───────────────────────── CLOB HMAC signer ── -/

/-- Characters kept by the sanitizing regular expression of
`decodeBase64Secret`: `[A-Za-z0-9+/=]`. -/
def isB64Char (c : Char) : Bool :=
  c.isAlpha || c.isDigit || c = '+' || c = '/' || c = '='

/-- Embedding of `decodeBase64Secret` in the CLOB auth module: base64url
characters are mapped back to the standard alphabet, every other non-base64
character is stripped (the sanitizer keeps `=`), and the result is decoded
by the Node.js decoder, which stops at the first `=`. -/
def decodeBase64Secret (secret : String) : List Nat :=
  let sanitized :=
    String.mk (((secret.data.map (fun c =>
      if c = '-' then '+' else if c = '_' then '/' else c))).filter isB64Char)
  base64Decode sanitized

/-- Embedding of `toUrlSafeBase64`: `+` and `/` become `-` and `_`; the `=`
padding suffix is kept. -/
def toUrlSafeBase64 (s : String) : String :=
  String.mk (s.data.map (fun c => if c = '+' then '-' else if c = '/' then '_' else c))

/-- Embedding of `buildPolyHmacSignature`: the message is the concatenation
of the second-resolution timestamp, the method, the request path with query,
and the optional raw body. -/
def buildPolyHmacSignature (secret : String) (timestampSec : Nat)
    (method requestPath : String) (body : Option String) : String :=
  let message := toString timestampSec ++ method ++ requestPath ++ body.getD ""
  let key := decodeBase64Secret secret
  toUrlSafeBase64 (base64Encode (hmacSha256 key (utf8Encode message)))

/-- Signature pipeline written from the words of the specification:
`signature = base64url(HMAC-SHA256(decode_base64url_tolerant(secret), message))`
with `message = timestamp_sec ‖ method ‖ request_path_with_query ‖ body`,
where the decode replaces `-`/`_` by `+`/`/`, strips non-base64 characters,
and the output keeps its `=` padding while `+`/`/` become `-`/`_`. -/
def signatureSpec (secret : String) (timestampSec : Nat)
    (method requestPath : String) (body : Option String) : String :=
  let key :=
    base64Decode (String.mk ((secret.data.map (fun c =>
      if c = '-' then '+' else if c = '_' then '/' else c)).filter isB64Char))
  let message :=
    toString timestampSec ++ method ++ requestPath ++
      (match body with | some b => b | none => "")
  toUrlSafeBase64 (base64Encode (hmacSha256 key (utf8Encode message)))

/- ───────────────────────── Trade ingestion ── -/

/-- One trade of the global public feed, with the numeric fields carried as
their decimal renderings (the source passes every field through `String(-)`
when it builds the id). -/
structure FeedTrade where
  asset : String
  side : String
  price : String
  size : String
  timestamp : String
  transactionHash : Option String
  proxyWallet : Option String
deriving Repr, DecidableEq

/-- The hashed content string of `syncAllTrades`: the seven fields joined
with `|`, a missing transaction hash or proxy wallet rendered as the empty
string. -/
def tradeMessage (t : FeedTrade) : String :=
  String.intercalate "|"
    [t.asset, t.side, t.price, t.size, t.timestamp,
     t.transactionHash.getD "", t.proxyWallet.getD ""]

/-- Deterministic trade id: lowercase hex SHA-256 of the content string. -/
def tradeId (t : FeedTrade) : String := sha256Hex (tradeMessage t)

/-- One stored row of the `trades` table as `syncAllTrades` builds it. -/
structure TradeRow where
  id : String
  marketId : String
  tokenId : String
  side : String
  price : String
  size : String
  timestamp : String
  transactionHash : Option String
deriving Repr, DecidableEq

/-- Append-only insert with `ON CONFLICT DO NOTHING` on the primary key. -/
def insertTradeRow (db : List TradeRow) (r : TradeRow) : List TradeRow :=
  if db.any (fun x => x.id = r.id) then db else db ++ [r]

/-- Bulk idempotent insert of trade rows. -/
def insertTrades (db : List TradeRow) (rs : List TradeRow) : List TradeRow :=
  rs.foldl insertTradeRow db

/-- Row construction of `syncAllTrades`: trades whose asset is not a tracked
token are dropped, the rest get the deterministic id. -/
def buildTradeRows (tokenToMarket : List (String × String)) (feed : List FeedTrade) :
    List TradeRow :=
  feed.filterMap (fun t =>
    match tokenToMarket.lookup t.asset with
    | none => none
    | some mId => some
        { id := tradeId t, marketId := mId, tokenId := t.asset, side := t.side
        , price := t.price, size := t.size, timestamp := t.timestamp
        , transactionHash := t.transactionHash })

/-- Embedding of the storage phase of `syncAllTrades`. -/
def syncAllTrades (db : List TradeRow) (tokenToMarket : List (String × String))
    (feed : List FeedTrade) : List TradeRow :=
  insertTrades db (buildTradeRows tokenToMarket feed)

/-- Closed market used by the merge-rule witness. -/
def c1DbRow : MarketRow :=
  { id := "m1", question := "q", slug := "s", endDateIso := none
  , outcomeTokenIds := ["t1", "t2"], outcomePrices := []
  , priceUpdatedAt := none, eventId := none
  , active := false, closed := true, archived := false }

/-- Catalog row that still reports the market as open. -/
def c1Incoming : MarketIn :=
  { id := "m1", question := "q", slug := "s", endDateIso := none
  , outcomeTokenIds := ["t1", "t2"], outcomePrices := []
  , active := true, closed := false, archived := false }

/-- The scenario trade of the specification: `asset A`, `side BUY`, `price
0.5`, `size 10`, `timestamp 1700`, transaction hash `0xabc`, no proxy
wallet. -/
def c3Trade : FeedTrade :=
  { asset := "A", side := "BUY", price := "0.5", size := "10", timestamp := "1700"
  , transactionHash := some "0xabc", proxyWallet := none }

/-- Store used by the expiration-audit witness: one expired open market
linked to one open event. -/
def c8Store : Store :=
  { markets :=
      [ { id := "m1", question := "q", slug := "s", endDateIso := some 6
        , outcomeTokenIds := [], outcomePrices := [], priceUpdatedAt := none
        , eventId := some "e1", active := true, closed := false, archived := false } ]
  , events :=
      [ { id := "e1", title := "t", slug := "s", endDate := some 9
        , active := true, closed := false, archived := false } ] }

/-- Buffered update whose token is not among the outcome token ids of its
market, used by the foreign-token flush witness. -/
def c10Update : PriceUpdate :=
  { tokenId := "tX", marketId := "m1", price := 1/4, timestamp := 30 }

/-- Database for the foreign-token flush witness: the market exists but its
`outcome_token_ids` do not contain `tX`. -/
def c10Db : FlushDb :=
  { markets :=
      [ { id := "m1", question := "q", slug := "s", endDateIso := none
        , outcomeTokenIds := ["t1", "t2"], outcomePrices := [1/2, 1/2]
        , priceUpdatedAt := none, eventId := none
        , active := true, closed := false, archived := false } ]
  , samples := [] }

/-- Flush-retention scenario: first update for token `t1` at price 0.40. -/
def c2U40 : PriceUpdate :=
  { tokenId := "t1", marketId := "m1", price := 2/5, timestamp := 10 }

/-- Flush-retention scenario: update for token `t2` at price 0.55. -/
def c2U55 : PriceUpdate :=
  { tokenId := "t2", marketId := "m1", price := 11/20, timestamp := 11 }

/-- Flush-retention scenario: newer update for token `t1` at price 0.42. -/
def c2U42 : PriceUpdate :=
  { tokenId := "t1", marketId := "m1", price := 21/50, timestamp := 12 }

/-- Flush-retention scenario database: one market with tokens `t1`, `t2`. -/
def c2Db : FlushDb :=
  { markets :=
      [ { id := "m1", question := "q", slug := "s", endDateIso := none
        , outcomeTokenIds := ["t1", "t2"], outcomePrices := [1/2, 1/2]
        , priceUpdatedAt := none, eventId := none
        , active := true, closed := false, archived := false } ]
  , samples := [] }

/-- Flush-retention scenario buffer holding `t1 = 0.40` and `t2 = 0.55`. -/
def c2Buf : List PriceUpdate := bufferSet (bufferSet [] c2U40) c2U55

/-- Connected client used by the resubscribe witness: token `[50]` already
subscribed. -/
def c7Client : ClientSt :=
  { id := 0, connected := true, assignedTokens := [], subscribedTokens := [[50]] }

/- ═════════════════════════ Theorems ═════════════════════════ -/

/- ───────────────────────── C1: catalog merge rule ── -/

theorem upsertMarketRow_id (r : MarketRow) (m : MarketIn) :
    (upsertMarketRow r m).id = r.id := rfl

theorem upsertEventRow_id (r : EventRow) (e : EventIn) :
    (upsertEventRow r e).id = r.id := rfl

theorem upsertMarket_find (db : List MarketRow) (m : MarketIn) (id : String)
    (r : MarketRow) (h : findMarket db id = some r) :
    ∃ r2, findMarket (upsertMarket db m) id = some r2 ∧
      (r2 = upsertMarketRow r m ∨ r2 = r) := by
  unfold findMarket at h
  unfold upsertMarket findMarket
  by_cases hany : db.any (fun x => x.id = m.id)
  · rw [if_pos hany, List.find?_map]
    have hpf : ((fun (x : MarketRow) => decide (x.id = id)) ∘
        (fun x => if x.id = m.id then upsertMarketRow x m else x)) =
        (fun x : MarketRow => decide (x.id = id)) := by
      funext x
      by_cases hx : x.id = m.id
      · simp [hx, upsertMarketRow]
      · simp [hx]
    rw [hpf, h]
    by_cases hr : r.id = m.id
    · exact ⟨upsertMarketRow r m, by simp [hr], Or.inl rfl⟩
    · exact ⟨r, by simp [hr], Or.inr rfl⟩
  · rw [if_neg hany, List.find?_append, h]
    exact ⟨r, rfl, Or.inr rfl⟩

theorem upsertEvent_find (db : List EventRow) (e : EventIn) (id : String)
    (r : EventRow) (h : findEvent db id = some r) :
    ∃ r2, findEvent (upsertEvent db e) id = some r2 ∧
      (r2 = upsertEventRow r e ∨ r2 = r) := by
  unfold findEvent at h
  unfold upsertEvent findEvent
  by_cases hany : db.any (fun x => x.id = e.id)
  · rw [if_pos hany, List.find?_map]
    have hpf : ((fun (x : EventRow) => decide (x.id = id)) ∘
        (fun x => if x.id = e.id then upsertEventRow x e else x)) =
        (fun x : EventRow => decide (x.id = id)) := by
      funext x
      by_cases hx : x.id = e.id
      · simp [hx, upsertEventRow]
      · simp [hx]
    rw [hpf, h]
    by_cases hr : r.id = e.id
    · exact ⟨upsertEventRow r e, by simp [hr], Or.inl rfl⟩
    · exact ⟨r, by simp [hr], Or.inr rfl⟩
  · rw [if_neg hany, List.find?_append, h]
    exact ⟨r, rfl, Or.inr rfl⟩

theorem upsertMarketsBatch_mono :
    ∀ (page : List MarketIn) (db : List MarketRow) (id : String) (r : MarketRow),
      findMarket db id = some r →
      ∃ r2, findMarket (upsertMarketsBatch db page) id = some r2 ∧
        (r.closed = true → r2.closed = true) ∧ (r.archived = true → r2.archived = true) := by
  intro page
  induction page with
  | nil => exact fun db id r h => ⟨r, h, fun hc => hc, fun ha => ha⟩
  | cons m rest ih =>
      intro db id r h
      obtain ⟨r1, h1, hr1⟩ := upsertMarket_find db m id r h
      obtain ⟨r2, h2, hc2, ha2⟩ := ih (upsertMarket db m) id r1 h1
      refine ⟨r2, h2, ?_, ?_⟩
      · intro hc
        apply hc2
        rcases hr1 with h' | h'
        · subst h'; simp [upsertMarketRow, hc]
        · subst h'; exact hc
      · intro ha
        apply ha2
        rcases hr1 with h' | h'
        · subst h'; simp [upsertMarketRow, ha]
        · subst h'; exact ha

theorem upsertEventsBatch_mono :
    ∀ (page : List EventIn) (db : List EventRow) (id : String) (r : EventRow),
      findEvent db id = some r →
      ∃ r2, findEvent (upsertEventsBatch db page) id = some r2 ∧
        (r.closed = true → r2.closed = true) ∧ (r.archived = true → r2.archived = true) := by
  intro page
  induction page with
  | nil => exact fun db id r h => ⟨r, h, fun hc => hc, fun ha => ha⟩
  | cons e rest ih =>
      intro db id r h
      obtain ⟨r1, h1, hr1⟩ := upsertEvent_find db e id r h
      obtain ⟨r2, h2, hc2, ha2⟩ := ih (upsertEvent db e) id r1 h1
      refine ⟨r2, h2, ?_, ?_⟩
      · intro hc
        apply hc2
        rcases hr1 with h' | h'
        · subst h'; simp [upsertEventRow, hc]
        · subst h'; exact hc
      · intro ha
        apply ha2
        rcases hr1 with h' | h'
        · subst h'; simp [upsertEventRow, ha]
        · subst h'; exact ha

/-- C1: for every existing market or event row and incoming catalog row with
the same id, the page upsert or-merges `closed` and `archived` with the
incoming flags and recomputes `active` as false whenever the merged `closed`
or `archived` holds, otherwise as the incoming `active`; consequently the
`closed` and `archived` flags never change from true back to false across
any sequence of catalog page upserts. -/
theorem catalog_upsert_merge_rule :
    (∀ (r : MarketRow) (m : MarketIn),
        (upsertMarketRow r m).closed = (r.closed || m.closed) ∧
        (upsertMarketRow r m).archived = (r.archived || m.archived) ∧
        (upsertMarketRow r m).active =
          (if (upsertMarketRow r m).closed || (upsertMarketRow r m).archived
           then false else m.active)) ∧
    (∀ (r : EventRow) (e : EventIn),
        (upsertEventRow r e).closed = (r.closed || e.closed) ∧
        (upsertEventRow r e).archived = (r.archived || e.archived) ∧
        (upsertEventRow r e).active =
          (if (upsertEventRow r e).closed || (upsertEventRow r e).archived
           then false else e.active)) ∧
    (∀ (pages : List (List MarketIn)) (db : List MarketRow) (id : String) (r : MarketRow),
        findMarket db id = some r →
        ∃ r2, findMarket (pages.foldl upsertMarketsBatch db) id = some r2 ∧
          (r.closed = true → r2.closed = true) ∧
          (r.archived = true → r2.archived = true)) ∧
    (∀ (pages : List (List EventIn)) (db : List EventRow) (id : String) (r : EventRow),
        findEvent db id = some r →
        ∃ r2, findEvent (pages.foldl upsertEventsBatch db) id = some r2 ∧
          (r.closed = true → r2.closed = true) ∧
          (r.archived = true → r2.archived = true)) := by
  refine ⟨?_, ?_, ?_, ?_⟩
  · intro r m
    refine ⟨rfl, rfl, ?_⟩
    simp only [upsertMarketRow]
    by_cases h1 : (r.closed || m.closed) = true
    · simp [h1]
    · by_cases h2 : (r.archived || m.archived) = true
      · simp [h1, h2]
      · simp [h1, h2]
  · intro r e
    refine ⟨rfl, rfl, ?_⟩
    simp only [upsertEventRow]
    by_cases h1 : (r.closed || e.closed) = true
    · simp [h1]
    · by_cases h2 : (r.archived || e.archived) = true
      · simp [h1, h2]
      · simp [h1, h2]
  · intro pages
    induction pages with
    | nil => exact fun db id r h => ⟨r, h, fun hc => hc, fun ha => ha⟩
    | cons page rest ih =>
        intro db id r h
        obtain ⟨r1, h1, hc1, ha1⟩ := upsertMarketsBatch_mono page db id r h
        obtain ⟨r2, h2, hc2, ha2⟩ := ih (upsertMarketsBatch db page) id r1 h1
        exact ⟨r2, h2, fun hc => hc2 (hc1 hc), fun ha => ha2 (ha1 ha)⟩
  · intro pages
    induction pages with
    | nil => exact fun db id r h => ⟨r, h, fun hc => hc, fun ha => ha⟩
    | cons page rest ih =>
        intro db id r h
        obtain ⟨r1, h1, hc1, ha1⟩ := upsertEventsBatch_mono page db id r h
        obtain ⟨r2, h2, hc2, ha2⟩ := ih (upsertEventsBatch db page) id r1 h1
        exact ⟨r2, h2, fun hc => hc2 (hc1 hc), fun ha => ha2 (ha1 ha)⟩

/-- Witness for C1: a closed market stays closed across a catalog page that
reports it open. -/
theorem catalog_upsert_merge_rule_witness :
    findMarket [c1DbRow] "m1" = some c1DbRow ∧
    ∃ r2, findMarket ([[c1Incoming]].foldl upsertMarketsBatch [c1DbRow]) "m1" = some r2 ∧
      (c1DbRow.closed = true → r2.closed = true) ∧
      (c1DbRow.archived = true → r2.archived = true) :=
  ⟨by decide, catalog_upsert_merge_rule.2.2.1 [[c1Incoming]] [c1DbRow] "m1" c1DbRow (by decide)⟩

/- ───────────────────────── C5: backfill shape and idempotence ── -/

theorem insertSampleRow_keyPres (db : List Sample) (s t : Sample)
    (h : db.any (fun r => sampleKey r = sampleKey t) = true) :
    (insertSampleRow db s).any (fun r => sampleKey r = sampleKey t) = true := by
  unfold insertSampleRow
  by_cases hs : db.any (fun r => sampleKey r = sampleKey s)
  · simpa [hs] using h
  · rw [if_neg hs]
    simp [List.any_append, h]

theorem insertSampleRow_keyIn (db : List Sample) (s : Sample) :
    (insertSampleRow db s).any (fun r => sampleKey r = sampleKey s) = true := by
  unfold insertSampleRow
  by_cases hs : db.any (fun r => sampleKey r = sampleKey s)
  · simp [hs]
  · simp [hs, List.any_append]

theorem insertSamples_keyPres (ss : List Sample) :
    ∀ (db : List Sample) (t : Sample),
      db.any (fun r => sampleKey r = sampleKey t) = true →
      (insertSamples db ss).any (fun r => sampleKey r = sampleKey t) = true := by
  induction ss with
  | nil => exact fun db t h => h
  | cons a rest ih =>
      intro db t h
      exact ih (insertSampleRow db a) t (insertSampleRow_keyPres db a t h)

theorem insertSamples_keysIn (ss : List Sample) :
    ∀ (db : List Sample) (s : Sample), s ∈ ss →
      (insertSamples db ss).any (fun r => sampleKey r = sampleKey s) = true := by
  induction ss with
  | nil => intro db s h; cases h
  | cons a rest ih =>
      intro db s hs
      rcases List.mem_cons.mp hs with h | h
      · subst h
        exact insertSamples_keyPres rest (insertSampleRow db s) s (insertSampleRow_keyIn db s)
      · exact ih (insertSampleRow db a) s h

theorem insertSamples_noop (ss : List Sample) :
    ∀ (db : List Sample),
      (∀ s ∈ ss, db.any (fun r => sampleKey r = sampleKey s) = true) →
      insertSamples db ss = db := by
  induction ss with
  | nil => exact fun db _ => rfl
  | cons a rest ih =>
      intro db h
      have ha : insertSampleRow db a = db := by
        unfold insertSampleRow
        rw [if_pos (h a (List.mem_cons_self a rest))]
      show insertSamples (insertSampleRow db a) rest = db
      rw [ha]
      exact ih db (fun s hs => h s (List.mem_cons_of_mem a hs))

theorem insertSamples_idem (db : List Sample) (ss : List Sample) :
    insertSamples (insertSamples db ss) ss = insertSamples db ss :=
  insertSamples_noop ss (insertSamples db ss)
    (fun s hs => insertSamples_keysIn ss db s hs)

theorem insertSampleRow_nodupKeys (db : List Sample) (s : Sample)
    (h : (db.map sampleKey).Nodup) :
    ((insertSampleRow db s).map sampleKey).Nodup := by
  unfold insertSampleRow
  by_cases hs : db.any (fun r => sampleKey r = sampleKey s)
  · simpa [hs]
  · rw [if_neg hs]
    simp only [List.map_append, List.map_cons, List.map_nil]
    rw [List.nodup_append]
    refine ⟨h, List.nodup_singleton _, ?_⟩
    intro k hk hk2
    simp only [List.mem_singleton] at hk2
    subst hk2
    rcases List.mem_map.mp hk with ⟨r, hr, hr2⟩
    exact hs (List.any_eq_true.mpr ⟨r, hr, by simp [hr2]⟩)

theorem insertSamples_nodupKeys (ss : List Sample) :
    ∀ (db : List Sample), (db.map sampleKey).Nodup →
      ((insertSamples db ss).map sampleKey).Nodup := by
  induction ss with
  | nil => exact fun db h => h
  | cons a rest ih =>
      intro db h
      exact ih (insertSampleRow db a) (insertSampleRow_nodupKeys db a h)

/-- C5: the backfill writes, per history point, two samples `(token0, p)` and
`(token1, 1 - p)` for a binary market, one sample for a single-token market,
and only the primary-token sample for more than two tokens; re-running the
backfill over the same history changes nothing, and a backfill run never
creates two samples with the same `(market_id, token_id, instant, source)`
key. -/
theorem backfill_market_history_shape :
    (∀ (m t0 t1 : String) (t : Nat) (p : Rat),
        backfillPointSamples m [t0, t1] t p =
          [ { marketId := m, tokenId := t0, instant := t, price := p, source := "clob" }
          , { marketId := m, tokenId := t1, instant := t, price := 1 - p, source := "clob" } ]) ∧
    (∀ (m t0 : String) (t : Nat) (p : Rat),
        backfillPointSamples m [t0] t p =
          [ { marketId := m, tokenId := t0, instant := t, price := p, source := "clob" } ]) ∧
    (∀ (m t0 t1 t2 : String) (rest : List String) (t : Nat) (p : Rat),
        backfillPointSamples m (t0 :: t1 :: t2 :: rest) t p =
          [ { marketId := m, tokenId := t0, instant := t, price := p, source := "clob" } ]) ∧
    (∀ (db : List Sample) (m : String) (tokenIds : List String)
        (history : List (Nat × Rat)),
        backfillMarketHistory (backfillMarketHistory db m tokenIds history) m tokenIds history =
          backfillMarketHistory db m tokenIds history) ∧
    (∀ (m : String) (tokenIds : List String) (history : List (Nat × Rat)),
        ((backfillMarketHistory [] m tokenIds history).map sampleKey).Nodup) := by
  refine ⟨fun m t0 t1 t p => rfl, fun m t0 t p => rfl, fun m t0 t1 t2 rest t p => rfl, ?_, ?_⟩
  · intro db m tokenIds history
    exact insertSamples_idem db _
  · intro m tokenIds history
    exact insertSamples_nodupKeys _ [] (by simp)

/- ───────────────────────── C3: deterministic trade ids ── -/

theorem insertTradeRow_idPres (db : List TradeRow) (r : TradeRow) (x : String)
    (h : db.any (fun y => y.id = x) = true) :
    (insertTradeRow db r).any (fun y => y.id = x) = true := by
  unfold insertTradeRow
  by_cases hr : db.any (fun y => y.id = r.id)
  · simpa [hr] using h
  · rw [if_neg hr]
    simp [List.any_append, h]

theorem insertTradeRow_idIn (db : List TradeRow) (r : TradeRow) :
    (insertTradeRow db r).any (fun y => y.id = r.id) = true := by
  unfold insertTradeRow
  by_cases hr : db.any (fun y => y.id = r.id)
  · simp [hr]
  · rw [if_neg hr]
    simp [List.any_append]

theorem insertTrades_idPres (rs : List TradeRow) :
    ∀ (db : List TradeRow) (x : String),
      db.any (fun y => y.id = x) = true →
      (insertTrades db rs).any (fun y => y.id = x) = true := by
  induction rs with
  | nil => exact fun db x h => h
  | cons a rest ih =>
      intro db x h
      exact ih (insertTradeRow db a) x (insertTradeRow_idPres db a x h)

theorem insertTrades_idsIn (rs : List TradeRow) :
    ∀ (db : List TradeRow) (r : TradeRow), r ∈ rs →
      (insertTrades db rs).any (fun y => y.id = r.id) = true := by
  induction rs with
  | nil => intro db r h; cases h
  | cons a rest ih =>
      intro db r hr
      rcases List.mem_cons.mp hr with h | h
      · subst h
        exact insertTrades_idPres rest (insertTradeRow db r) r.id (insertTradeRow_idIn db r)
      · exact ih (insertTradeRow db a) r h

theorem insertTrades_noop (rs : List TradeRow) :
    ∀ (db : List TradeRow),
      (∀ r ∈ rs, db.any (fun y => y.id = r.id) = true) →
      insertTrades db rs = db := by
  induction rs with
  | nil => exact fun db _ => rfl
  | cons a rest ih =>
      intro db h
      have ha : insertTradeRow db a = db := by
        unfold insertTradeRow
        rw [if_pos (h a (List.mem_cons_self a rest))]
      show insertTrades (insertTradeRow db a) rest = db
      rw [ha]
      exact ih db (fun r hr => h r (List.mem_cons_of_mem a hr))

theorem insertTradeRow_nodupIds (db : List TradeRow) (r : TradeRow)
    (h : (db.map (fun y => y.id)).Nodup) :
    ((insertTradeRow db r).map (fun y => y.id)).Nodup := by
  unfold insertTradeRow
  by_cases hr : db.any (fun y => y.id = r.id)
  · simpa [hr]
  · rw [if_neg hr]
    simp only [List.map_append, List.map_cons, List.map_nil]
    rw [List.nodup_append]
    refine ⟨h, List.nodup_singleton _, ?_⟩
    intro k hk hk2
    simp only [List.mem_singleton] at hk2
    subst hk2
    rcases List.mem_map.mp hk with ⟨y, hy, hy2⟩
    exact hr (List.any_eq_true.mpr ⟨y, hy, by simp [hy2]⟩)

theorem insertTrades_nodupIds (rs : List TradeRow) :
    ∀ (db : List TradeRow), (db.map (fun y => y.id)).Nodup →
      ((insertTrades db rs).map (fun y => y.id)).Nodup := by
  induction rs with
  | nil => exact fun db h => h
  | cons a rest ih =>
      intro db h
      exact ih (insertTradeRow db a) (insertTradeRow_nodupIds db a h)

theorem buildTradeRows_mem (ttm : List (String × String)) (feed : List FeedTrade)
    (r : TradeRow) (h : r ∈ buildTradeRows ttm feed) :
    ∃ t ∈ feed, ttm.lookup t.asset = some r.marketId ∧ r.id = tradeId t := by
  unfold buildTradeRows at h
  rcases List.mem_filterMap.mp h with ⟨t, ht, hr⟩
  cases hl : ttm.lookup t.asset with
  | none => rw [hl] at hr; cases hr
  | some mId =>
      rw [hl] at hr
      simp only [Option.some.injEq] at hr
      subst hr
      exact ⟨t, ht, hl, rfl⟩

theorem buildTradeRows_tracked (ttm : List (String × String)) (feed : List FeedTrade)
    (t : FeedTrade) (ht : t ∈ feed) (mId : String) (hm : ttm.lookup t.asset = some mId) :
    { id := tradeId t, marketId := mId, tokenId := t.asset, side := t.side
    , price := t.price, size := t.size, timestamp := t.timestamp
    , transactionHash := t.transactionHash : TradeRow } ∈ buildTradeRows ttm feed := by
  unfold buildTradeRows
  refine List.mem_filterMap.mpr ⟨t, ht, ?_⟩
  rw [hm]

/-- C3: the stored id of every trade kept from the global feed is the
lowercase hex SHA-256 of the pipe-joined content string with missing
`transactionHash`/`proxyWallet` rendered as empty strings; every built row
carries the id of its feed trade; re-ingesting the same feed is a no-op; and
a tracked trade of the feed ends up stored exactly once when the stored ids
were previously distinct. -/
theorem trade_id_deterministic :
    (∀ t : FeedTrade,
        tradeId t = sha256Hex (t.asset ++ "|" ++ t.side ++ "|" ++ t.price ++ "|" ++
          t.size ++ "|" ++ t.timestamp ++ "|" ++ t.transactionHash.getD "" ++ "|" ++
          t.proxyWallet.getD "")) ∧
    (∀ (ttm : List (String × String)) (feed : List FeedTrade) (r : TradeRow),
        r ∈ buildTradeRows ttm feed →
        ∃ t ∈ feed, ttm.lookup t.asset = some r.marketId ∧ r.id = tradeId t) ∧
    (∀ (db : List TradeRow) (ttm : List (String × String)) (feed : List FeedTrade),
        syncAllTrades (syncAllTrades db ttm feed) ttm feed = syncAllTrades db ttm feed) ∧
    (∀ (db : List TradeRow) (ttm : List (String × String)) (feed : List FeedTrade)
        (t : FeedTrade) (mId : String),
        t ∈ feed → ttm.lookup t.asset = some mId →
        (db.map (fun y => y.id)).Nodup →
        ((syncAllTrades db ttm feed).map (fun y => y.id)).count (tradeId t) = 1) := by
  refine ⟨?_, buildTradeRows_mem, ?_, ?_⟩
  · intro t
    unfold tradeId tradeMessage
    simp [String.intercalate, String.intercalate.go, String.append_assoc]
  · intro db ttm feed
    unfold syncAllTrades
    exact insertTrades_noop _ _ (fun r hr => insertTrades_idsIn _ db r hr)
  · intro db ttm feed t mId ht hm hnd
    have hnd2 : ((syncAllTrades db ttm feed).map (fun y => y.id)).Nodup :=
      insertTrades_nodupIds _ db hnd
    have hmem : tradeId t ∈ (syncAllTrades db ttm feed).map (fun y => y.id) := by
      have hrow := buildTradeRows_tracked ttm feed t ht mId hm
      have hany := insertTrades_idsIn (buildTradeRows ttm feed) db _ hrow
      rcases List.any_eq_true.mp hany with ⟨y, hy, hy2⟩
      simp only [decide_eq_true_eq] at hy2
      exact List.mem_map.mpr ⟨y, hy, hy2⟩
    exact List.count_eq_one_of_mem hnd2 hmem

/-- Witness for C3: feeding the scenario trade twice against an empty store
leaves exactly one row, whose id is the SHA-256 of the content string. -/
theorem trade_id_deterministic_witness :
    c3Trade ∈ [c3Trade, c3Trade] ∧
    [("A", "m1")].lookup c3Trade.asset = some "m1" ∧
    (([] : List TradeRow).map (fun y => y.id)).Nodup ∧
    ((syncAllTrades [] [("A", "m1")] [c3Trade, c3Trade]).map (fun y => y.id)).count
        (tradeId c3Trade) = 1 :=
  ⟨List.mem_cons_self _ _, rfl, List.nodup_nil,
    trade_id_deterministic.2.2.2 [] [("A", "m1")] [c3Trade, c3Trade] c3Trade "m1"
      (List.mem_cons_self _ _) rfl List.nodup_nil⟩

/- ───────────────────────── C4: CLOB HMAC signer ── -/

/-- SHA-256 test vector of FIPS 180-4: digest of the three-byte message
`abc`. -/
theorem sha256Hex_abc :
    sha256Hex "abc" =
      "ba7816bf8f01cfea414140de5dae2223b00361a396177a9cb410ff61f20015ad" := by
  decide

/-- SHA-256 test vector: digest of the empty message. -/
theorem sha256Hex_empty :
    sha256Hex "" =
      "e3b0c44298fc1c149afbf4c8996fb92427ae41e4649b934ca495991b7852b855" := by
  decide

/-- C4: for every credential set and request, the signer hashes the message
`timestamp ‖ method ‖ path-with-query ‖ body` (empty body when absent) with
HMAC-SHA256 under the tolerantly base64url-decoded secret and emits the
base64 digest with `+`/`/` replaced by `-`/`_` and the `=` padding kept; the
closed equations check the full pipeline against externally computed
vectors: a plain base64 secret with absent body, a base64url secret with
stripped characters and a present body, and a secret with an interior `=`
at which the Node.js decoder stops (leaving a one-byte key). -/
theorem poly_hmac_signature_spec :
    (∀ (secret : String) (ts : Nat) (method path : String) (body : Option String),
        buildPolyHmacSignature secret ts method path body =
          signatureSpec secret ts method path body) ∧
    buildPolyHmacSignature "c3VwZXJzZWNyZXRrZXk=" 1700000000 "GET" "/trades?limit=10" none =
      "_-zFcOFYuJtAmbMg2j0q-cKEKsiS16WyUppLP4r2q2c=" ∧
    buildPolyHmacSignature "a-b_c html!?==" 1699999999 "POST" "/order" (some "bodypayload") =
      "LFzxaqcJJpFA2VCizzObLuOcOomV-joYMrN_l9uDqY0=" ∧
    decodeBase64Secret "QQ=QQ" = [65] ∧
    buildPolyHmacSignature "QQ=QQ" 1700000000 "GET" "/markets?limit=5" none =
      "wcADyNx1DSla7g7N_oEWJUXMD0kyl3X_Um2jFn_fpLY=" := by
  refine ⟨?_, by decide, by decide, by decide, by decide⟩
  intro secret ts method path body
  unfold buildPolyHmacSignature signatureSpec decodeBase64Secret
  cases body <;> rfl

/- ───────────────────────── C6: FNV-1a sharding ── -/

theorem toUint32_lt (i : Int) : toUint32 i < 4294967296 := by
  unfold toUint32
  have h1 : 0 ≤ i % 4294967296 := Int.emod_nonneg i (by norm_num)
  have h2 : i % 4294967296 < 4294967296 := Int.emod_lt_of_pos i (by norm_num)
  omega

theorem toUint32_toInt32 (n : Nat) : toUint32 (toInt32 n) = n % 4294967296 := by
  unfold toUint32 toInt32
  split <;> omega

theorem toUint32_jsXor (a b : Int) :
    toUint32 (jsXor a b) = Nat.xor (toUint32 a) (toUint32 b) := by
  unfold jsXor
  rw [toUint32_toInt32]
  apply Nat.mod_eq_of_lt
  have h32 : (4294967296 : Nat) = 2 ^ 32 := by norm_num
  rw [h32]
  exact Nat.xor_lt_two_pow (h32 ▸ toUint32_lt a) (h32 ▸ toUint32_lt b)

theorem toUint32_jsImul (a b : Int) :
    toUint32 (jsImul a b) = toUint32 a * toUint32 b % 4294967296 := by
  unfold jsImul
  rw [toUint32_toInt32]
  omega

theorem hashTokenGo_spec :
    ∀ (units : List Nat) (h : Int), (∀ c ∈ units, c < 4294967296) →
      toUint32 (hashTokenGo h units) =
        units.foldl (fun a c => Nat.xor a c * 16777619 % 4294967296) (toUint32 h) := by
  intro units
  induction units with
  | nil => intro h _; rfl
  | cons c cs ih =>
      intro h hb
      simp only [hashTokenGo, List.foldl_cons]
      rw [ih _ (fun x hx => hb x (List.mem_cons_of_mem c hx))]
      have hcb := hb c (List.mem_cons_self c cs)
      have hc : toUint32 ((c : Nat) : Int) = c := by
        unfold toUint32
        have h2 : ((c : Nat) : Int) < (4294967296 : Int) := by exact_mod_cast hcb
        rw [Int.emod_eq_of_lt (Int.natCast_nonneg c) h2]
        exact Int.toNat_natCast c
      have hK : toUint32 (16777619 : Int) = 16777619 := by decide
      rw [toUint32_jsImul, toUint32_jsXor, hc, hK]

/-- C6: the WebSocket shard of a token equals the mathematical FNV-1a 32-bit
hash of its UTF-16 code units taken modulo `max(1, ws_connections)`; since
the source hash (JavaScript signed 32-bit xor, `Math.imul`, final `>>> 0`)
coincides with the pure function `fnv1a32`, the assignment depends only on
the token id and the client count and is identical across restarts. -/
theorem ws_shard_hash_stable (wsConnections : Nat) (units : List Nat)
    (h : ∀ c ∈ units, c < 65536) :
    hashToken units = fnv1a32 units ∧
    shardIndex wsConnections units = fnv1a32 units % Nat.max 1 wsConnections := by
  have hb : ∀ c ∈ units, c < 4294967296 :=
    fun c hc => lt_trans (h c hc) (by norm_num)
  have h1 : hashToken units = fnv1a32 units := by
    unfold hashToken fnv1a32
    rw [hashTokenGo_spec units _ hb]
    have hseed : toUint32 (2166136261 : Int) = 2166136261 := by decide
    rw [hseed]
  refine ⟨h1, ?_⟩
  unfold shardIndex clientCount
  rw [h1]

/-- Witness for C6 at the code units of the token id `Hi`. -/
theorem ws_shard_hash_stable_witness :
    (∀ c ∈ ([72, 105] : List Nat), c < 65536) ∧
    (hashToken [72, 105] = fnv1a32 [72, 105] ∧
      shardIndex 3 [72, 105] = fnv1a32 [72, 105] % Nat.max 1 3) :=
  ⟨by decide, ws_shard_hash_stable 3 [72, 105] (by decide)⟩

/- ───────────────────────── C9: shard assignment partition ── -/

theorem getD_set_self (l : List α) (j : Nat) (v d : α) (h : j < l.length) :
    (l.set j v).getD j d = v := by
  simp [List.getD_eq_getElem?_getD, List.getElem?_set_self h]

theorem getD_set_ne (l : List α) (i j : Nat) (v d : α) (h : j ≠ i) :
    (l.set j v).getD i d = l.getD i d := by
  simp [List.getD_eq_getElem?_getD, List.getElem?_set_ne h]

theorem assignFold_length (n : Nat) (ts : List (List Nat)) :
    ∀ (shards : List (List (List Nat))),
      (ts.foldl (pushShard n) shards).length = shards.length := by
  induction ts with
  | nil => exact fun shards => rfl
  | cons t rest ih =>
      intro shards
      show (rest.foldl (pushShard n) (pushShard n shards t)).length = shards.length
      rw [ih (pushShard n shards t)]
      exact List.length_set shards _ _

theorem countP_eq_one_of_nodup_mem [DecidableEq α] (l : List α) (hnd : l.Nodup)
    (t : α) (ht : t ∈ l) : l.countP (fun x => x = t) = 1 := by
  induction l with
  | nil => cases ht
  | cons a rest ih =>
      rcases List.mem_cons.mp ht with h | h
      · subst h
        have hnotin : t ∉ rest := (List.nodup_cons.mp hnd).1
        have hzero : rest.countP (fun x => x = t) = 0 := by
          rw [List.countP_eq_zero]
          intro a ha
          simp only [decide_eq_true_eq]
          intro hEq
          exact hnotin (hEq ▸ ha)
        rw [List.countP_cons_of_pos _ _ (by exact decide_eq_true rfl), hzero]
      · have hnotin := (List.nodup_cons.mp hnd).1
        have hne : ¬(a = t) := fun hEq => hnotin (hEq ▸ h)
        rw [List.countP_cons_of_neg _ _ (by simpa using hne)]
        exact ih (List.nodup_cons.mp hnd).2 h

theorem assignFold_getD (n : Nat) (hn : 1 ≤ n) (ts : List (List Nat)) :
    ∀ (shards : List (List (List Nat))), shards.length = n →
      ∀ i, i < n →
        (ts.foldl (pushShard n) shards).getD i [] =
          shards.getD i [] ++ ts.filter (fun t => hashToken t % n = i) := by
  induction ts with
  | nil => intro shards _ i _; simp
  | cons t rest ih =>
      intro shards hlen i hi
      have hj : hashToken t % n < n := Nat.mod_lt _ (Nat.lt_of_lt_of_le Nat.zero_lt_one hn)
      have hlen2 : (pushShard n shards t).length = n := by
        unfold pushShard
        rw [List.length_set]
        exact hlen
      show (rest.foldl (pushShard n) (pushShard n shards t)).getD i [] = _
      rw [ih (pushShard n shards t) hlen2 i hi]
      by_cases hij : hashToken t % n = i
      · subst hij
        unfold pushShard
        rw [getD_set_self _ _ _ _ (by rw [hlen]; exact hj)]
        rw [List.filter_cons_of_pos (by simp)]
        simp [List.append_assoc]
      · unfold pushShard
        rw [getD_set_ne _ _ _ _ _ hij]
        rw [List.filter_cons_of_neg (by simp [hij])]

/-- C9: after the shard-assignment step the client lists partition the
subscribed-token set: every subscribed token lands in exactly one client
list (once), no token is in two lists, and no list holds a token outside the
subscribed set; moreover client `i` holds exactly the tokens hashing to `i`
modulo the client count. -/
theorem assignTokenShards_partition (wsConnections : Nat) (tokens : List (List Nat))
    (hnd : tokens.Nodup) :
    (assignTokenShards tokens (clientCount wsConnections)).length = clientCount wsConnections ∧
    (∀ i, i < clientCount wsConnections →
        (assignTokenShards tokens (clientCount wsConnections)).getD i [] =
          tokens.filter (fun t => hashToken t % clientCount wsConnections = i)) ∧
    (∀ t ∈ tokens, ∃ i, i < clientCount wsConnections ∧
        t ∈ (assignTokenShards tokens (clientCount wsConnections)).getD i [] ∧
        ((assignTokenShards tokens (clientCount wsConnections)).getD i []).countP
          (fun x => x = t) = 1 ∧
        ∀ j, j < clientCount wsConnections → j ≠ i →
          t ∉ (assignTokenShards tokens (clientCount wsConnections)).getD j []) ∧
    (∀ i, i < clientCount wsConnections →
        ∀ t ∈ (assignTokenShards tokens (clientCount wsConnections)).getD i [], t ∈ tokens) := by
  have hn : 1 ≤ clientCount wsConnections := Nat.le_max_left 1 wsConnections
  have hrep : (List.replicate (clientCount wsConnections) ([] : List (List Nat))).length =
      clientCount wsConnections := List.length_replicate _ _
  have hchar : ∀ i, i < clientCount wsConnections →
      (assignTokenShards tokens (clientCount wsConnections)).getD i [] =
        tokens.filter (fun t => hashToken t % clientCount wsConnections = i) := by
    intro i hi
    show (tokens.foldl (pushShard _) _).getD i [] = _
    rw [assignFold_getD _ hn tokens _ hrep i hi]
    simp [List.getD_eq_getElem?_getD, List.getElem?_replicate, hi]
  refine ⟨?_, hchar, ?_, ?_⟩
  · show (tokens.foldl (pushShard _) _).length = _
    rw [assignFold_length]
    exact hrep
  · intro t ht
    refine ⟨hashToken t % clientCount wsConnections,
      Nat.mod_lt _ (Nat.lt_of_lt_of_le Nat.zero_lt_one hn), ?_, ?_, ?_⟩
    · rw [hchar _ (Nat.mod_lt _ (Nat.lt_of_lt_of_le Nat.zero_lt_one hn))]
      refine List.mem_filter.mpr ⟨ht, ?_⟩
      show decide (hashToken t % clientCount wsConnections =
        hashToken t % clientCount wsConnections) = true
      exact decide_eq_true rfl
    · rw [hchar _ (Nat.mod_lt _ (Nat.lt_of_lt_of_le Nat.zero_lt_one hn))]
      refine countP_eq_one_of_nodup_mem _ (hnd.filter _) t (List.mem_filter.mpr ⟨ht, ?_⟩)
      show decide (hashToken t % clientCount wsConnections =
        hashToken t % clientCount wsConnections) = true
      exact decide_eq_true rfl
    · intro j hj hne hmem
      rw [hchar j hj] at hmem
      have h2 := (List.mem_filter.mp hmem).2
      simp only [decide_eq_true_eq] at h2
      exact hne h2.symm
  · intro i hi t hmem
    rw [hchar i hi] at hmem
    exact (List.mem_filter.mp hmem).1

/-- Witness for C9 with two single-character tokens and two clients. -/
theorem assignTokenShards_partition_witness :
    ([[49], [50]] : List (List Nat)).Nodup ∧
    ((assignTokenShards [[49], [50]] (clientCount 2)).length = clientCount 2 ∧
      (∀ i, i < clientCount 2 →
          (assignTokenShards [[49], [50]] (clientCount 2)).getD i [] =
            [[49], [50]].filter (fun t => hashToken t % clientCount 2 = i)) ∧
      (∀ t ∈ ([[49], [50]] : List (List Nat)), ∃ i, i < clientCount 2 ∧
          t ∈ (assignTokenShards [[49], [50]] (clientCount 2)).getD i [] ∧
          ((assignTokenShards [[49], [50]] (clientCount 2)).getD i []).countP
            (fun x => x = t) = 1 ∧
          ∀ j, j < clientCount 2 → j ≠ i →
            t ∉ (assignTokenShards [[49], [50]] (clientCount 2)).getD j []) ∧
      (∀ i, i < clientCount 2 →
          ∀ t ∈ (assignTokenShards [[49], [50]] (clientCount 2)).getD i [], t ∈ [[49], [50]])) :=
  ⟨by decide, assignTokenShards_partition 2 [[49], [50]] (by decide)⟩

/- ───────────────────────── C7: resubscribe frames ── -/

theorem chunksGo_flatten (m : Nat) :
    ∀ (xs acc : List α) (cap : Nat),
      (chunksGo m xs acc cap).flatMap (fun b => b) = acc.reverse ++ xs := by
  intro xs
  induction xs with
  | nil =>
      intro acc cap
      unfold chunksGo
      by_cases h : acc.isEmpty
      · have : acc = [] := List.isEmpty_iff.mp h
        subst this
        simp
      · simp [h]
  | cons x rest ih =>
      intro acc cap
      unfold chunksGo
      by_cases h : cap ≤ 1
      · rw [if_pos h, List.flatMap_cons, ih [] m]
        simp
      · rw [if_neg h, ih (x :: acc) (cap - 1)]
        simp

theorem chunksOf_flatten (n : Nat) (l : List α) :
    (chunksOf n l).flatMap (fun b => b) = l := by
  unfold chunksOf
  rw [chunksGo_flatten (Nat.max 1 n) l []]
  rfl

theorem sendSubscriptions_not_initial (ts : List (List Nat)) :
    sendSubscriptions ts false = (chunksOf 500 ts).map WsFrame.subscribeFrame := by
  unfold sendSubscriptions
  by_cases h : ts.isEmpty
  · have h2 : ts = [] := List.isEmpty_iff.mp h
    subst h2
    rfl
  · simp [h]

theorem resubscribeClient_frames (c : ClientSt) (assigned : List (List Nat)) :
    (∀ f ∈ (resubscribeClient c assigned).2, ∃ assets, f = WsFrame.subscribeFrame assets) ∧
    ((resubscribeClient c assigned).2.flatMap frameAssets =
      (if c.connected then assigned.filter (fun t => !(c.subscribedTokens.contains t))
       else [])) ∧
    ((c.connected = false ∨
        assigned.filter (fun t => !(c.subscribedTokens.contains t)) = []) →
      (resubscribeClient c assigned).2 = []) := by
  unfold resubscribeClient
  by_cases hc : c.connected = true
  · rw [if_neg (by rw [hc]; simp)]
    by_cases he : (assigned.filter (fun t => !(c.subscribedTokens.contains t))).isEmpty = true
    · rw [if_pos he]
      have h2 : assigned.filter (fun t => !(c.subscribedTokens.contains t)) = [] :=
        List.isEmpty_iff.mp he
      refine ⟨fun f hf => absurd hf (List.not_mem_nil f), ?_, fun _ => rfl⟩
      rw [hc, if_pos rfl, h2]
      rfl
    · rw [if_neg he]
      refine ⟨?_, ?_, ?_⟩
      · intro f hf
        rw [sendSubscriptions_not_initial] at hf
        rcases List.mem_map.mp hf with ⟨b, _, hb⟩
        exact ⟨b, hb.symm⟩
      · rw [sendSubscriptions_not_initial, List.flatMap_map, hc, if_pos rfl]
        exact chunksOf_flatten 500 _
      · intro h
        rcases h with h | h
        · rw [hc] at h; cases h
        · rw [h] at he; exact absurd rfl he
  · have hc2 : c.connected = false := Bool.eq_false_iff.mpr hc
    rw [if_pos (by rw [hc2]; rfl)]
    refine ⟨fun f hf => absurd hf (List.not_mem_nil f), ?_, fun _ => rfl⟩
    rw [hc2, if_neg (by simp)]
    rfl

/-- C7: a resubscribe after the markets-refreshed signal sends, per connected
client, only `operation=subscribe` frames, whose token ids are exactly the
newly assigned shard minus the tokens already marked subscribed; no initial
frame and no unsubscribe frame is sent, a client with nothing to add sends
nothing, and a disconnected client sends nothing. -/
theorem resubscribe_only_subscribe_frames (wsConnections : Nat)
    (tokens : List (List Nat)) (clients : List ClientSt)
    (h : clients.length = clientCount wsConnections) :
    (resubscribe wsConnections tokens clients).2.length = clients.length ∧
    (∀ i, i < clients.length →
      (∀ f ∈ ((resubscribe wsConnections tokens clients).2.getD i []),
          ∃ assets, f = WsFrame.subscribeFrame assets) ∧
      (((resubscribe wsConnections tokens clients).2.getD i []).flatMap frameAssets =
        (if (clients.getD i defaultClient).connected
         then ((assignTokenShards tokens clients.length).getD i []).filter
            (fun t => !((clients.getD i defaultClient).subscribedTokens.contains t))
         else [])) ∧
      (((clients.getD i defaultClient).connected = false ∨
        ((assignTokenShards tokens clients.length).getD i []).filter
          (fun t => !((clients.getD i defaultClient).subscribedTokens.contains t)) = []) →
        ((resubscribe wsConnections tokens clients).2.getD i []) = [])) := by
  simp only [resubscribe]
  rw [if_pos h]
  constructor
  · rw [List.length_map, List.length_mapIdx]
  · intro i hi
    have hidx : ((clients.mapIdx (fun j c =>
        resubscribeClient c ((assignTokenShards tokens clients.length).getD j []))).map
          (fun p => p.2)).getD i [] =
        (resubscribeClient
          (clients.getD i defaultClient)
          ((assignTokenShards tokens clients.length).getD i [])).2 := by
      rw [List.getD_eq_getElem?_getD, List.getElem?_map, List.getElem?_mapIdx,
        List.getElem?_eq_getElem hi]
      simp [List.getD_eq_getElem?_getD, List.getElem?_eq_getElem hi]
    rw [hidx]
    exact resubscribeClient_frames _ _

/-- Witness for C7 with one client and two tokens. -/
theorem resubscribe_only_subscribe_frames_witness :
    ([c7Client] : List ClientSt).length = clientCount 1 ∧
    ((resubscribe 1 [[49], [50]] [c7Client]).2.length = [c7Client].length ∧
    (∀ i, i < [c7Client].length →
      (∀ f ∈ ((resubscribe 1 [[49], [50]] [c7Client]).2.getD i []),
          ∃ assets, f = WsFrame.subscribeFrame assets) ∧
      (((resubscribe 1 [[49], [50]] [c7Client]).2.getD i []).flatMap frameAssets =
        (if ([c7Client].getD i defaultClient).connected
         then ((assignTokenShards [[49], [50]] [c7Client].length).getD i []).filter
            (fun t => !(([c7Client].getD i defaultClient).subscribedTokens.contains t))
         else [])) ∧
      ((([c7Client].getD i defaultClient).connected = false ∨
        ((assignTokenShards [[49], [50]] [c7Client].length).getD i []).filter
          (fun t => !(([c7Client].getD i defaultClient).subscribedTokens.contains t)) = []) →
        ((resubscribe 1 [[49], [50]] [c7Client]).2.getD i []) = []))) :=
  ⟨by decide, resubscribe_only_subscribe_frames 1 [[49], [50]] [c7Client] (by decide)⟩

/- ───────────────────────── C8: expiration audit idempotence ── -/

theorem marketExpired_mono (now1 now2 : Nat) (h : now1 ≤ now2) (m : MarketRow)
    (he : marketExpired now1 m = true) : marketExpired now2 m = true := by
  unfold marketExpired at he ⊢
  cases hd : m.endDateIso with
  | none => simp [hd] at he
  | some d =>
      simp only [hd, Bool.and_eq_true, decide_eq_true_eq] at he ⊢
      exact ⟨he.1, Nat.lt_of_lt_of_le he.2 h⟩

theorem eventExpired_mono (now1 now2 : Nat) (h : now1 ≤ now2) (e : EventRow)
    (he : eventExpired now1 e = true) : eventExpired now2 e = true := by
  unfold eventExpired at he ⊢
  cases hd : e.endDate with
  | none => simp [hd] at he
  | some d =>
      simp only [hd, Bool.and_eq_true, decide_eq_true_eq] at he ⊢
      exact ⟨he.1, Nat.lt_of_lt_of_le he.2 h⟩

theorem marketExpired_deact (now : Nat) (m : MarketRow) :
    marketExpired now { m with active := false } = false := by
  unfold marketExpired
  simp

theorem eventExpired_deact (now : Nat) (e : EventRow) :
    eventExpired now { e with active := false } = false := by
  unfold eventExpired
  simp

theorem eventOrphan_deact (ms : List MarketRow) (e : EventRow) :
    eventOrphan ms { e with active := false } = false := by
  unfold eventOrphan
  simp

theorem stepMarket_pos {now : Nat} {m : MarketRow} (h : marketExpired now m = true) :
    stepMarket now m = { m with active := false } := by
  unfold stepMarket
  rw [if_pos h]

theorem stepMarket_neg {now : Nat} {m : MarketRow} (h : ¬marketExpired now m = true) :
    stepMarket now m = m := by
  unfold stepMarket
  rw [if_neg h]

theorem stepOrphan_pos {ms : List MarketRow} {e : EventRow} (h : eventOrphan ms e = true) :
    stepOrphan ms e = { e with active := false } := by
  unfold stepOrphan
  rw [if_pos h]

theorem stepOrphan_neg {ms : List MarketRow} {e : EventRow} (h : ¬eventOrphan ms e = true) :
    stepOrphan ms e = e := by
  unfold stepOrphan
  rw [if_neg h]

theorem stepExpired_pos {now : Nat} {e : EventRow} (h : eventExpired now e = true) :
    stepExpired now e = { e with active := false } := by
  unfold stepExpired
  rw [if_pos h]

theorem stepExpired_neg {now : Nat} {e : EventRow} (h : ¬eventExpired now e = true) :
    stepExpired now e = e := by
  unfold stepExpired
  rw [if_neg h]

theorem stepOrphan_deact (ms : List MarketRow) (e : EventRow) :
    stepOrphan ms { e with active := false } = { e with active := false } :=
  stepOrphan_neg (by simp [eventOrphan_deact])

theorem stepExpired_deact (now : Nat) (e : EventRow) :
    stepExpired now { e with active := false } = { e with active := false } :=
  stepExpired_neg (by simp [eventExpired_deact])

theorem stepMarket_comp (now1 now2 : Nat) (h : now1 ≤ now2) (m : MarketRow) :
    stepMarket now2 (stepMarket now1 m) = stepMarket now2 m := by
  by_cases h1 : marketExpired now1 m = true
  · rw [stepMarket_pos h1, stepMarket_neg (by simp [marketExpired_deact]),
      stepMarket_pos (marketExpired_mono now1 now2 h m h1)]
  · rw [stepMarket_neg h1]

theorem stepMarket_eventId (now : Nat) (m : MarketRow) :
    (stepMarket now m).eventId = m.eventId := by
  by_cases h : marketExpired now m = true
  · rw [stepMarket_pos h]
  · rw [stepMarket_neg h]

theorem stepMarket_live (now : Nat) (m : MarketRow)
    (h : marketLive (stepMarket now m) = true) :
    marketLive m = true ∧ ¬marketExpired now m = true := by
  by_cases hc : marketExpired now m = true
  · rw [stepMarket_pos hc] at h
    unfold marketLive at h
    simp at h
  · rw [stepMarket_neg hc] at h
    exact ⟨h, hc⟩

theorem linkedAny_map (now : Nat) (ms : List MarketRow) (eid : String) :
    (ms.map (stepMarket now)).any (fun m => m.eventId = some eid) =
      ms.any (fun m => m.eventId = some eid) := by
  rw [List.any_map]
  congr 1
  funext m
  simp [Function.comp, stepMarket_eventId]

theorem liveAny_map_mono (now1 now2 : Nat) (h : now1 ≤ now2) (ms : List MarketRow)
    (eid : String)
    (hno : (ms.map (stepMarket now1)).any
      (fun m => m.eventId = some eid && marketLive m) = false) :
    (ms.map (stepMarket now2)).any
      (fun m => m.eventId = some eid && marketLive m) = false := by
  rw [List.any_map, List.any_eq_false] at hno ⊢
  intro m hm hp
  simp only [Function.comp, Bool.and_eq_true, decide_eq_true_eq] at hp
  obtain ⟨hid, hlive⟩ := hp
  obtain ⟨hlm, hc2⟩ := stepMarket_live now2 m hlive
  have hc1 : ¬marketExpired now1 m = true :=
    fun hx => hc2 (marketExpired_mono now1 now2 h m hx)
  apply hno m hm
  simp only [Function.comp, Bool.and_eq_true, decide_eq_true_eq]
  rw [stepMarket_neg hc1]
  rw [stepMarket_neg hc2] at hid
  exact ⟨hid, hlm⟩

theorem eventOrphan_map_mono (now1 now2 : Nat) (h : now1 ≤ now2) (ms : List MarketRow)
    (e : EventRow) (ho : eventOrphan (ms.map (stepMarket now1)) e = true) :
    eventOrphan (ms.map (stepMarket now2)) e = true := by
  unfold eventOrphan at ho ⊢
  simp only [Bool.and_eq_true] at ho
  obtain ⟨⟨⟨ha, hc⟩, hl⟩, hnb⟩ := ho
  simp only [Bool.and_eq_true]
  refine ⟨⟨⟨ha, hc⟩, ?_⟩, ?_⟩
  · rw [linkedAny_map]
    rw [linkedAny_map] at hl
    exact hl
  · rw [Bool.not_eq_true'] at hnb ⊢
    exact liveAny_map_mono now1 now2 h ms e.id hnb

theorem eventStep_comp (now1 now2 : Nat) (h : now1 ≤ now2) (ms : List MarketRow)
    (e : EventRow) :
    stepExpired now2 (stepOrphan (ms.map (stepMarket now2))
      (stepExpired now1 (stepOrphan (ms.map (stepMarket now1)) e))) =
    stepExpired now2 (stepOrphan (ms.map (stepMarket now2)) e) := by
  by_cases h1 : eventOrphan (ms.map (stepMarket now1)) e = true
  · rw [stepOrphan_pos h1, stepExpired_deact, stepOrphan_deact, stepExpired_deact,
      stepOrphan_pos (eventOrphan_map_mono now1 now2 h ms e h1), stepExpired_deact]
  · rw [stepOrphan_neg h1]
    by_cases h2 : eventExpired now1 e = true
    · rw [stepExpired_pos h2, stepOrphan_deact, stepExpired_deact]
      by_cases h3 : eventOrphan (ms.map (stepMarket now2)) e = true
      · rw [stepOrphan_pos h3, stepExpired_deact]
      · rw [stepOrphan_neg h3, stepExpired_pos (eventExpired_mono now1 now2 h e h2)]
    · rw [stepExpired_neg h2]

theorem stepMarket_closed_id (now : Nat) (m : MarketRow) (hc : m.closed = true) :
    stepMarket now m = m := by
  apply stepMarket_neg
  unfold marketExpired
  simp [hc]

theorem stepOrphan_closed_id (ms : List MarketRow) (e : EventRow) (hc : e.closed = true) :
    stepOrphan ms e = e := by
  apply stepOrphan_neg
  unfold eventOrphan
  simp [hc]

theorem stepExpired_closed_id (now : Nat) (e : EventRow) (hc : e.closed = true) :
    stepExpired now e = e := by
  apply stepExpired_neg
  unfold eventExpired
  simp [hc]

/-- C8: running the expiration audit at `now1` and then again at a later (or
equal) `now2` yields the same store as running it once at `now2`; rows with
`closed = true` survive any run unchanged; and deactivated rows never match
the audit predicates again. -/
theorem expiration_audit_idempotent (now1 now2 : Nat) (s : Store) (h : now1 ≤ now2) :
    runExpirationAudit now2 (runExpirationAudit now1 s) = runExpirationAudit now2 s ∧
    (∀ now m, m ∈ s.markets → m.closed = true → m ∈ (runExpirationAudit now s).markets) ∧
    (∀ now e, e ∈ s.events → e.closed = true → e ∈ (runExpirationAudit now s).events) ∧
    (∀ (now : Nat) (m : MarketRow), marketExpired now { m with active := false } = false) ∧
    (∀ (now : Nat) (e : EventRow), eventExpired now { e with active := false } = false) ∧
    (∀ (ms : List MarketRow) (e : EventRow),
        eventOrphan ms { e with active := false } = false) := by
  refine ⟨?_, ?_, ?_, marketExpired_deact, eventExpired_deact, eventOrphan_deact⟩
  · unfold runExpirationAudit auditExpiredMarkets auditEventsWithNoActiveMarkets
      auditExpiredEvents
    dsimp only
    have hm : (s.markets.map (stepMarket now1)).map (stepMarket now2) =
        s.markets.map (stepMarket now2) := by
      rw [List.map_map]
      exact List.map_congr_left (fun m _ => stepMarket_comp now1 now2 h m)
    rw [hm]
    congr 1
    simp only [List.map_map]
    exact List.map_congr_left (fun e _ => by
      simp only [Function.comp]
      exact eventStep_comp now1 now2 h s.markets e)
  · intro now m hm hc
    unfold runExpirationAudit auditExpiredMarkets auditEventsWithNoActiveMarkets
      auditExpiredEvents
    dsimp only
    exact List.mem_map.mpr ⟨m, hm, stepMarket_closed_id now m hc⟩
  · intro now e he hc
    unfold runExpirationAudit auditExpiredMarkets auditEventsWithNoActiveMarkets
      auditExpiredEvents
    dsimp only
    refine List.mem_map.mpr ⟨stepOrphan (s.markets.map (stepMarket now)) e, ?_, ?_⟩
    · exact List.mem_map.mpr ⟨e, he, rfl⟩
    · rw [stepOrphan_closed_id _ _ hc, stepExpired_closed_id now e hc]

/-- Witness for C8: the audit at times 5 then 7 over the scenario store. -/
theorem expiration_audit_idempotent_witness :
    5 ≤ 7 ∧
    (runExpirationAudit 7 (runExpirationAudit 5 c8Store) = runExpirationAudit 7 c8Store ∧
    (∀ now m, m ∈ c8Store.markets → m.closed = true →
        m ∈ (runExpirationAudit now c8Store).markets) ∧
    (∀ now e, e ∈ c8Store.events → e.closed = true →
        e ∈ (runExpirationAudit now c8Store).events) ∧
    (∀ (now : Nat) (m : MarketRow), marketExpired now { m with active := false } = false) ∧
    (∀ (now : Nat) (e : EventRow), eventExpired now { e with active := false } = false) ∧
    (∀ (ms : List MarketRow) (e : EventRow),
        eventOrphan ms { e with active := false } = false)) :=
  ⟨by decide, expiration_audit_idempotent 5 7 c8Store (by decide)⟩

/- ───────────────────────── C10: flush of foreign-token updates ── -/

theorem applyStmt_samples_mem (db : FlushDb) (st : FlushStmt) (s : Sample)
    (h : s ∈ db.samples) : s ∈ (applyStmt db st).samples := by
  cases st with
  | insertSample s2 =>
      show s ∈ insertSampleRow db.samples s2
      unfold insertSampleRow
      by_cases hc : db.samples.any (fun r => sampleKey r = sampleKey s2)
      · rw [if_pos hc]; exact h
      · rw [if_neg hc]; exact List.mem_append_left _ h
  | setPrices mId ps now => exact h

theorem applyStmt_keyFresh (db : FlushDb) (st : FlushStmt)
    (k : String × String × Nat × String)
    (hf : db.samples.any (fun r => sampleKey r = k) = false)
    (hst : ∀ s2, st = FlushStmt.insertSample s2 → sampleKey s2 ≠ k) :
    (applyStmt db st).samples.any (fun r => sampleKey r = k) = false := by
  cases st with
  | insertSample s2 =>
      have hne := hst s2 rfl
      show (insertSampleRow db.samples s2).any (fun r => sampleKey r = k) = false
      unfold insertSampleRow
      by_cases hc : db.samples.any (fun r => sampleKey r = sampleKey s2)
      · rw [if_pos hc]; exact hf
      · rw [if_neg hc, List.any_append]
        simp [hf, hne]
  | setPrices mId ps now => exact hf

theorem foldStmts_mem (stmts : List FlushStmt) :
    ∀ (db : FlushDb) (s : Sample), s ∈ db.samples →
      s ∈ (stmts.foldl applyStmt db).samples := by
  induction stmts with
  | nil => exact fun db s h => h
  | cons st rest ih =>
      intro db s h
      exact ih (applyStmt db st) s (applyStmt_samples_mem db st s h)

theorem foldStmts_insert_mem (stmts : List FlushStmt) :
    ∀ (db : FlushDb) (s : Sample),
      FlushStmt.insertSample s ∈ stmts →
      (∀ s2, FlushStmt.insertSample s2 ∈ stmts → sampleKey s2 = sampleKey s → s2 = s) →
      db.samples.any (fun r => sampleKey r = sampleKey s) = false →
      s ∈ (stmts.foldl applyStmt db).samples := by
  induction stmts with
  | nil => intro db s h; cases h
  | cons st rest ih =>
      intro db s hin huniq hf
      by_cases hst : st = FlushStmt.insertSample s
      · subst hst
        have hmem : s ∈ (applyStmt db (FlushStmt.insertSample s)).samples := by
          show s ∈ insertSampleRow db.samples s
          unfold insertSampleRow
          rw [if_neg (by simp [hf])]
          exact List.mem_append_right _ (List.mem_singleton.mpr rfl)
        exact foldStmts_mem rest _ s hmem
      · have hrest : FlushStmt.insertSample s ∈ rest := by
          rcases List.mem_cons.mp hin with h | h
          · exact absurd h.symm hst
          · exact h
        apply ih (applyStmt db st) s hrest
          (fun s2 h2 he => huniq s2 (List.mem_cons_of_mem st h2) he)
        apply applyStmt_keyFresh db st (sampleKey s) hf
        intro s2 h2 hke
        subst h2
        exact hst (by rw [huniq s2 (List.mem_cons_self _ _) hke])

theorem groupInsert_mem_src (acc : List (String × List PriceUpdate)) (u : PriceUpdate)
    (g : String × List PriceUpdate) (hg : g ∈ groupInsert acc u)
    (v : PriceUpdate) (hv : v ∈ g.2) :
    (∃ g0 ∈ acc, g0.1 = g.1 ∧ v ∈ g0.2) ∨ (v = u ∧ g.1 = u.marketId) := by
  unfold groupInsert at hg
  by_cases hc : acc.any (fun x => x.1 = u.marketId)
  · rw [if_pos hc] at hg
    rcases List.mem_map.mp hg with ⟨g0, hg0, hmap⟩
    by_cases hm : g0.1 = u.marketId
    · rw [if_pos hm] at hmap
      subst hmap
      rcases List.mem_append.mp hv with h | h
      · exact Or.inl ⟨g0, hg0, rfl, h⟩
      · exact Or.inr ⟨List.mem_singleton.mp h, hm⟩
    · rw [if_neg hm] at hmap
      subst hmap
      exact Or.inl ⟨g0, hg0, rfl, hv⟩
  · rw [if_neg hc] at hg
    rcases List.mem_append.mp hg with h | h
    · exact Or.inl ⟨g, h, rfl, hv⟩
    · have h2 : g = (u.marketId, [u]) := List.mem_singleton.mp h
      subst h2
      exact Or.inr ⟨List.mem_singleton.mp hv, rfl⟩

theorem groupFold_mem_src (us : List PriceUpdate) :
    ∀ (acc : List (String × List PriceUpdate)) (g : String × List PriceUpdate),
      g ∈ us.foldl groupInsert acc → ∀ v ∈ g.2,
      (∃ g0 ∈ acc, g0.1 = g.1 ∧ v ∈ g0.2) ∨ (v ∈ us ∧ v.marketId = g.1) := by
  induction us with
  | nil => intro acc g hg v hv; exact Or.inl ⟨g, hg, rfl, hv⟩
  | cons u rest ih =>
      intro acc g hg v hv
      rcases ih (groupInsert acc u) g hg v hv with ⟨g0, hg0, he, hv0⟩ | ⟨hin, hm⟩
      · rcases groupInsert_mem_src acc u g0 hg0 v hv0 with ⟨g1, hg1, he1, hv1⟩ | ⟨hvu, hm1⟩
        · exact Or.inl ⟨g1, hg1, he1.trans he, hv1⟩
        · refine Or.inr ⟨hvu ▸ List.mem_cons_self u rest, ?_⟩
          rw [hvu, ← he, ← hm1]
      · exact Or.inr ⟨List.mem_cons_of_mem u hin, hm⟩

theorem groupByMarket_mem_src (us : List PriceUpdate) (g : String × List PriceUpdate)
    (hg : g ∈ groupByMarket us) (v : PriceUpdate) (hv : v ∈ g.2) :
    v ∈ us ∧ v.marketId = g.1 := by
  rcases groupFold_mem_src us [] g hg v hv with ⟨g0, hg0, _⟩ | h
  · cases hg0
  · exact h

theorem groupInsert_bucket_pres (acc : List (String × List PriceUpdate)) (w : PriceUpdate)
    (g : String × List PriceUpdate) (hg : g ∈ acc) (M : String) (v : PriceUpdate)
    (hm : g.1 = M) (hv : v ∈ g.2) :
    ∃ g2 ∈ groupInsert acc w, g2.1 = M ∧ v ∈ g2.2 := by
  unfold groupInsert
  by_cases hc : acc.any (fun x => x.1 = w.marketId)
  · rw [if_pos hc]
    by_cases hgm : g.1 = w.marketId
    · exact ⟨(g.1, g.2 ++ [w]), List.mem_map.mpr ⟨g, hg, by rw [if_pos hgm]⟩, hm,
        List.mem_append_left _ hv⟩
    · exact ⟨g, List.mem_map.mpr ⟨g, hg, by rw [if_neg hgm]⟩, hm, hv⟩
  · rw [if_neg hc]
    exact ⟨g, List.mem_append_left _ hg, hm, hv⟩

theorem groupFold_bucket_pres (us : List PriceUpdate) :
    ∀ (acc : List (String × List PriceUpdate)) (g : String × List PriceUpdate),
      g ∈ acc → ∀ (M : String) (v : PriceUpdate), g.1 = M → v ∈ g.2 →
      ∃ g2 ∈ us.foldl groupInsert acc, g2.1 = M ∧ v ∈ g2.2 := by
  induction us with
  | nil => intro acc g hg M v hm hv; exact ⟨g, hg, hm, hv⟩
  | cons w rest ih =>
      intro acc g hg M v hm hv
      obtain ⟨g2, hg2, hm2, hv2⟩ := groupInsert_bucket_pres acc w g hg M v hm hv
      exact ih (groupInsert acc w) g2 hg2 M v hm2 hv2

theorem groupInsert_bucket (acc : List (String × List PriceUpdate)) (u : PriceUpdate) :
    ∃ g ∈ groupInsert acc u, g.1 = u.marketId ∧ u ∈ g.2 := by
  unfold groupInsert
  by_cases hc : acc.any (fun x => x.1 = u.marketId)
  · rw [if_pos hc]
    rcases List.any_eq_true.mp hc with ⟨g0, hg0, hm⟩
    simp only [decide_eq_true_eq] at hm
    refine ⟨(g0.1, g0.2 ++ [u]), List.mem_map.mpr ⟨g0, hg0, by rw [if_pos hm]⟩, hm, by simp⟩
  · rw [if_neg hc]
    exact ⟨(u.marketId, [u]), List.mem_append_right _ (List.mem_singleton.mpr rfl), rfl,
      by simp⟩

theorem groupFold_bucket (us : List PriceUpdate) :
    ∀ (acc : List (String × List PriceUpdate)) (u : PriceUpdate), u ∈ us →
      ∃ g ∈ us.foldl groupInsert acc, g.1 = u.marketId ∧ u ∈ g.2 := by
  induction us with
  | nil => intro acc u h; cases h
  | cons w rest ih =>
      intro acc u hu
      rcases List.mem_cons.mp hu with h | h
      · subst h
        obtain ⟨g, hg, hm, hv⟩ := groupInsert_bucket acc u
        exact groupFold_bucket_pres rest (groupInsert acc u) g hg u.marketId u hm hv
      · exact ih (groupInsert acc w) u h

theorem groupByMarket_bucket (us : List PriceUpdate) (u : PriceUpdate) (hu : u ∈ us) :
    ∃ g ∈ groupByMarket us, g.1 = u.marketId ∧ u ∈ g.2 :=
  groupFold_bucket us [] u hu

theorem flushStmts_insert_src (db : FlushDb) (now : Nat) (buf : List PriceUpdate)
    (s : Sample) (h : FlushStmt.insertSample s ∈ flushStmts db now buf) :
    ∃ v ∈ buf, s = sampleOfUpdate v := by
  unfold flushStmts at h
  rcases List.mem_flatMap.mp h with ⟨g, hg, hs⟩
  unfold groupStmts at hs
  cases hf : db.markets.find? (fun r => r.id = g.1) with
  | none => rw [hf] at hs; cases hs
  | some r =>
      rw [hf] at hs
      rcases List.mem_append.mp hs with h2 | h2
      · rcases List.mem_map.mp h2 with ⟨v, hv, he⟩
        obtain ⟨hvin, _⟩ := groupByMarket_mem_src buf g hg v hv
        cases he
        exact ⟨v, hvin, rfl⟩
      · cases List.mem_singleton.mp h2

theorem flushStmts_insert_mem (db : FlushDb) (now : Nat) (buf : List PriceUpdate)
    (u : PriceUpdate) (hu : u ∈ buf)
    (hm : db.markets.any (fun r => r.id = u.marketId) = true) :
    FlushStmt.insertSample (sampleOfUpdate u) ∈ flushStmts db now buf := by
  obtain ⟨g, hg, hgm, hgu⟩ := groupByMarket_bucket buf u hu
  unfold flushStmts
  refine List.mem_flatMap.mpr ⟨g, hg, ?_⟩
  unfold groupStmts
  have hfind : (db.markets.find? (fun r => r.id = g.1)).isSome := by
    rw [hgm, List.find?_isSome]
    rcases List.any_eq_true.mp hm with ⟨r, hr, hp⟩
    exact ⟨r, hr, hp⟩
  obtain ⟨r, hr⟩ := Option.isSome_iff_exists.mp hfind
  rw [hr]
  exact List.mem_append_left _ (List.mem_map.mpr ⟨u, hgu, rfl⟩)

theorem sampleOfUpdate_key_inj (buf : List PriceUpdate)
    (hnd : (buf.map (fun w => w.tokenId)).Nodup) (u v : PriceUpdate)
    (hu : u ∈ buf) (hv : v ∈ buf)
    (hk : sampleKey (sampleOfUpdate v) = sampleKey (sampleOfUpdate u)) : v = u := by
  have ht : v.tokenId = u.tokenId := by
    unfold sampleKey sampleOfUpdate at hk
    simp only [Prod.mk.injEq] at hk
    exact hk.2.1
  exact List.inj_on_of_nodup_map hnd hv hu ht

theorem flushPrices_success_db (buf : List PriceUpdate) (db : FlushDb) (now : Nat)
    (hne : buf ≠ []) :
    (flushPrices buf db now none).2 = (flushStmts db now buf).foldl applyStmt db := by
  unfold flushPrices
  rw [if_neg (fun hx => hne (List.isEmpty_iff.mp hx))]

/-- C10: a buffered update whose token does not occur in the outcome token
ids of its market changes no element of the merged `outcome_prices`, yet a
successful flush still inserts its Price Sample row (provided no row with
the same unique key pre-exists), and the flush completes normally, clearing
the whole snapshot from the buffer. -/
theorem flush_foreign_token_kept :
    (∀ (tokenIds : List String) (prices : List Rat) (us1 us2 : List PriceUpdate)
        (u : PriceUpdate), u.tokenId ∉ tokenIds →
        applyPriceUpdates tokenIds prices (us1 ++ u :: us2) =
          applyPriceUpdates tokenIds prices (us1 ++ us2)) ∧
    (∀ (buf : List PriceUpdate) (db : FlushDb) (now : Nat) (u : PriceUpdate),
        u ∈ buf →
        ((buf.map (fun w => w.tokenId)).Nodup) →
        db.markets.any (fun r => r.id = u.marketId) = true →
        db.samples.any (fun r => sampleKey r = sampleKey (sampleOfUpdate u)) = false →
        sampleOfUpdate u ∈ ((flushPrices buf db now none).2).samples) ∧
    (∀ (buf : List PriceUpdate) (db : FlushDb) (now : Nat),
        (flushPrices buf db now none).1 = []) := by
  refine ⟨?_, ?_, ?_⟩
  · intro tokenIds prices us1 us2 u hnotin
    unfold applyPriceUpdates
    rw [List.foldl_append, List.foldl_append, List.foldl_cons]
    have hnone : tokenIds.findIdx? (fun t => t = u.tokenId) = none := by
      rw [List.findIdx?_eq_none_iff]
      intro x hx
      simp only [decide_eq_false_iff_not]
      intro hEq
      exact hnotin (hEq ▸ hx)
    rw [hnone]
  · intro buf db now u hu hnd hm hf
    rw [flushPrices_success_db buf db now (List.ne_nil_of_mem hu)]
    apply foldStmts_insert_mem (flushStmts db now buf) db (sampleOfUpdate u)
      (flushStmts_insert_mem db now buf u hu hm) ?_ hf
    intro s2 h2 hke
    obtain ⟨v, hv, he⟩ := flushStmts_insert_src db now buf s2 h2
    subst he
    rw [sampleOfUpdate_key_inj buf hnd u v hu hv hke]
  · intro buf db now
    unfold flushPrices
    by_cases hb : buf.isEmpty = true
    · rw [if_pos hb]
      exact List.isEmpty_iff.mp hb
    · rw [if_neg hb]
      rw [List.filter_eq_nil_iff]
      intro v hv
      simp only [Bool.not_eq_true', Bool.not_eq_false]
      exact List.any_eq_true.mpr ⟨v, hv, by simp⟩

/-- Witness for C10: the update for token `tX` on a market whose outcome
tokens are `t1`, `t2`. -/
theorem flush_foreign_token_kept_witness :
    c10Update ∈ [c10Update] ∧
    (([c10Update].map (fun w => w.tokenId)).Nodup) ∧
    c10Db.markets.any (fun r => r.id = c10Update.marketId) = true ∧
    c10Db.samples.any (fun r => sampleKey r = sampleKey (sampleOfUpdate c10Update)) = false ∧
    sampleOfUpdate c10Update ∈ ((flushPrices [c10Update] c10Db 40 none).2).samples :=
  ⟨List.mem_singleton.mpr rfl, by decide, by decide, by decide,
    flush_foreign_token_kept.2.1 [c10Update] c10Db 40 c10Update
      (List.mem_singleton.mpr rfl) (by decide) (by decide) (by decide)⟩

/- ───────────────────────── C2: flush failure semantics ── -/

/-- Counterexample for C2 as stated: the flush issues its statements outside
a transaction, so when the statement at index 1 throws, the sample inserted
by statement 0 has already persisted: the buffer is fully preserved, but the
persisted state is not unchanged. -/
theorem flush_failure_counterexample :
    1 < (flushStmts c2Db 100 c2Buf).length ∧
    (flushPrices c2Buf c2Db 100 (some 1)).1 = c2Buf ∧
    (flushPrices c2Buf c2Db 100 (some 1)).2 ≠ c2Db := by
  refine ⟨by decide, rfl, ?_⟩
  intro h
  have h2 := congrArg (fun d => d.samples.length) h
  exact absurd h2 (by decide)

/-- C2 (amended): when any flush statement throws, every entry that was in
the buffer at flush start remains in the buffer, and the persisted state is
exactly the effects of the statements executed before the throwing one (the
flush is not atomic); in the scenario where the failure precedes the first
write, pushing the newer `t1 = 0.42` and flushing successfully leaves
exactly one Price Sample per token (`t1 = 0.42`, `t2 = 0.55`), the market
row carries both merged prices, and the buffer drains. -/
theorem flush_failure_preserves_buffer :
    (∀ (buf : List PriceUpdate) (db : FlushDb) (now : Nat) (k : Nat),
        k < (flushStmts db now buf).length →
        (flushPrices buf db now (some k)).1 = buf ∧
        (flushPrices buf db now (some k)).2 =
          ((flushStmts db now buf).take k).foldl applyStmt db) ∧
    ((flushPrices (bufferSet (flushPrices c2Buf c2Db 100 (some 0)).1 c2U42)
        (flushPrices c2Buf c2Db 100 (some 0)).2 200 none).2.samples =
      [sampleOfUpdate c2U42, sampleOfUpdate c2U55] ∧
    (flushPrices (bufferSet (flushPrices c2Buf c2Db 100 (some 0)).1 c2U42)
        (flushPrices c2Buf c2Db 100 (some 0)).2 200 none).2.samples.countP
      (fun s => s.tokenId = "t1") = 1 ∧
    (flushPrices (bufferSet (flushPrices c2Buf c2Db 100 (some 0)).1 c2U42)
        (flushPrices c2Buf c2Db 100 (some 0)).2 200 none).2.samples.countP
      (fun s => s.tokenId = "t2") = 1 ∧
    (flushPrices (bufferSet (flushPrices c2Buf c2Db 100 (some 0)).1 c2U42)
        (flushPrices c2Buf c2Db 100 (some 0)).2 200 none).2.markets.map
      (fun r => r.outcomePrices) = [[c2U42.price, c2U55.price]] ∧
    (flushPrices (bufferSet (flushPrices c2Buf c2Db 100 (some 0)).1 c2U42)
        (flushPrices c2Buf c2Db 100 (some 0)).2 200 none).1 = []) := by
  constructor
  · intro buf db now k hk
    constructor
    · unfold flushPrices
      by_cases hb : buf.isEmpty = true
      · rw [if_pos hb]
      · rw [if_neg hb]
        dsimp only
        rw [if_pos hk]
    · unfold flushPrices
      by_cases hb : buf.isEmpty = true
      · rw [if_pos hb]
        have hbuf : buf = [] := List.isEmpty_iff.mp hb
        subst hbuf
        simp [flushStmts, groupByMarket]
      · rw [if_neg hb]
        dsimp only
        rw [if_pos hk]
  · exact ⟨rfl, rfl, rfl, rfl, rfl⟩

/-- Witness for C2: the failure at statement index 0 of the scenario flush. -/
theorem flush_failure_preserves_buffer_witness :
    0 < (flushStmts c2Db 100 c2Buf).length ∧
    ((flushPrices c2Buf c2Db 100 (some 0)).1 = c2Buf ∧
      (flushPrices c2Buf c2Db 100 (some 0)).2 =
        ((flushStmts c2Db 100 c2Buf).take 0).foldl applyStmt c2Db) :=
  ⟨by decide, flush_failure_preserves_buffer.1 c2Buf c2Db 100 0 (by decide)⟩

end Indexer
